import Mathlib

/-!
Verification of the DataTransform pipeline (src/DataTransform/main.py).

The development shallowly embeds:
- the JSON data model (`JVal`), with numeric literals restricted to naturals
  (no claim depends on fractional or negative numbers);
- the text-level repair algorithm `repair_json` (regex substitution
  `re.sub(r'\n\}[\n$]', r'\n},\n', s)` as `pySub`, the unguarded backward
  comma scan with Python's wrap-around negative indexing as `lastCommaScan`,
  and the standard-library `json.loads` as a fuel-indexed recursive-descent
  parser `json_loads`);
- the extractor protocol `consume` of `TaskTransformer` and the five
  `_consume_impl` variants, with Python `KeyError`/`TypeError`/`IndexError`
  surfaced through `Except PyErr`;
- the pipeline driver `run_task_transformers`, whose `except RuntimeError`
  handler is modelled on the per-group outcome.

Python exceptions abandon the partially mutated column store; no claim
observes a post-exception store, so `Except` (which drops the partial state)
is an adequate embedding of that behaviour.
-/

/-- Characters of a Python string, used for all embedded text. -/
abbrev Str := List Char

/-- JSON values as produced by `json.loads`: numbers restricted to naturals. -/
inductive JVal where
  | jnull : JVal
  | jbool : Bool → JVal
  | jnum : Nat → JVal
  | jstr : Str → JVal
  | jarr : List JVal → JVal
  | jobj : List (Str × JVal) → JVal

mutual

/-- Structural Boolean equality on `JVal`. -/
def JVal.beq : JVal → JVal → Bool
  | .jnull, .jnull => true
  | .jbool a, .jbool b => a == b
  | .jnum a, .jnum b => a == b
  | .jstr a, .jstr b => a == b
  | .jarr xs, .jarr ys => JVal.beqList xs ys
  | .jobj xs, .jobj ys => JVal.beqObj xs ys
  | _, _ => false

/-- Structural Boolean equality on lists of `JVal`. -/
def JVal.beqList : List JVal → List JVal → Bool
  | [], [] => true
  | x :: xs, y :: ys => JVal.beq x y && JVal.beqList xs ys
  | _, _ => false

/-- Structural Boolean equality on object entry lists. -/
def JVal.beqObj : List (Str × JVal) → List (Str × JVal) → Bool
  | [], [] => true
  | (k, v) :: xs, (l, w) :: ys => k == l && JVal.beq v w && JVal.beqObj xs ys
  | _, _ => false

end

mutual

def JVal.eq_of_beq : ∀ {a b : JVal}, JVal.beq a b = true → a = b
  | .jnull, .jnull, _ => rfl
  | .jbool _, .jbool _, h => by
    simp only [JVal.beq, beq_iff_eq] at h; rw [h]
  | .jnum _, .jnum _, h => by
    simp only [JVal.beq, beq_iff_eq] at h; rw [h]
  | .jstr _, .jstr _, h => by
    simp only [JVal.beq, beq_iff_eq] at h; rw [h]
  | .jarr xs, .jarr ys, h =>
    congrArg JVal.jarr (JVal.eqList_of_beq (by simpa [JVal.beq] using h))
  | .jobj xs, .jobj ys, h =>
    congrArg JVal.jobj (JVal.eqObj_of_beq (by simpa [JVal.beq] using h))

def JVal.eqList_of_beq : ∀ {xs ys : List JVal}, JVal.beqList xs ys = true → xs = ys
  | [], [], _ => rfl
  | x :: xs, y :: ys, h => by
    simp only [JVal.beqList, Bool.and_eq_true] at h
    rw [JVal.eq_of_beq h.1, JVal.eqList_of_beq h.2]

def JVal.eqObj_of_beq :
    ∀ {xs ys : List (Str × JVal)}, JVal.beqObj xs ys = true → xs = ys
  | [], [], _ => rfl
  | (k, v) :: xs, (l, w) :: ys, h => by
    simp only [JVal.beqObj, Bool.and_eq_true, beq_iff_eq] at h
    rw [h.1.1, JVal.eq_of_beq h.1.2, JVal.eqObj_of_beq h.2]

end

mutual

def JVal.beq_refl : ∀ a : JVal, JVal.beq a a = true
  | .jnull => rfl
  | .jbool b => by simp [JVal.beq]
  | .jnum n => by simp [JVal.beq]
  | .jstr s => by simp [JVal.beq]
  | .jarr xs => by simpa [JVal.beq] using JVal.beqList_refl xs
  | .jobj xs => by simpa [JVal.beq] using JVal.beqObj_refl xs

def JVal.beqList_refl : ∀ xs : List JVal, JVal.beqList xs xs = true
  | [] => rfl
  | x :: xs => by
    simp only [JVal.beqList, Bool.and_eq_true]
    exact ⟨JVal.beq_refl x, JVal.beqList_refl xs⟩

def JVal.beqObj_refl : ∀ xs : List (Str × JVal), JVal.beqObj xs xs = true
  | [] => rfl
  | (k, v) :: xs => by
    simp only [JVal.beqObj, Bool.and_eq_true, beq_iff_eq]
    exact ⟨⟨trivial, JVal.beq_refl v⟩, JVal.beqObj_refl xs⟩

end

instance : DecidableEq JVal := fun a b =>
  if h : JVal.beq a b = true then .isTrue (JVal.eq_of_beq h)
  else .isFalse (fun he => h (he ▸ JVal.beq_refl a))

/-- Kinds of Python exceptions the embedded code can raise.  `keyError` is a
dictionary lookup failure, `indexError` a string index out of range,
`jsonError` a `json.JSONDecodeError` (a `ValueError`), `osError` an I/O
failure such as a missing subdirectory; only `runtimeError` is a
`RuntimeError`. -/
inductive PyErr where
  | keyError : Str → PyErr
  | typeError : PyErr
  | indexError : PyErr
  | jsonError : PyErr
  | runtimeError : PyErr
  | osError : PyErr
deriving DecidableEq

/-- JSON whitespace, as accepted between tokens by `json.loads`. -/
def isWs (c : Char) : Bool := c = ' ' || c = '\n' || c = '\t' || c = '\r'

/-- Drop leading JSON whitespace. -/
def skipWs : Str → Str
  | c :: rest => if isWs c then skipWs rest else c :: rest
  | [] => []

/-- A text made only of JSON whitespace. -/
def wsOnly (l : Str) : Bool := l.all isWs

/-- ASCII decimal digit test. -/
def isDigit (c : Char) : Bool := '0' ≤ c && c ≤ '9'

/-- Numeric value of an ASCII digit. -/
def digitVal (c : Char) : Nat := c.toNat - '0'.toNat

/-- Character for a single decimal digit. -/
def digitChar (d : Nat) : Char := Char.ofNat (48 + d)

/-- Split off the longest decimal-digit prefix. -/
def takeDigits : Str → Str × Str
  | c :: rest =>
    if isDigit c then
      let p := takeDigits rest
      (c :: p.1, p.2)
    else ([], c :: rest)
  | [] => ([], [])

/-- Big-endian digit accumulation, as done by a JSON number scanner. -/
def digitsToNat (acc : Nat) : Str → Nat
  | [] => acc
  | c :: rest => digitsToNat (acc * 10 + digitVal c) rest

/-- Little-endian decimal digits of a natural number. -/
def natDigitsRev (n : Nat) : Str :=
  if h : n = 0 then [] else digitChar (n % 10) :: natDigitsRev (n / 10)
decreasing_by exact Nat.div_lt_self (Nat.pos_of_ne_zero h) (by omega)

/-- Decimal rendering of a natural number, as `json.dumps` prints it. -/
def ppNat (n : Nat) : Str := if n = 0 then ['0'] else (natDigitsRev n).reverse

/-- Scan a JSON string body after the opening quote: content up to the closing
quote, and the rest of the input.  Escape sequences are not modelled; all
embedded strings are kept free of `\` and `"`. -/
def parseStr : Str → Option (Str × Str)
  | [] => none
  | c :: rest =>
    if c = '"' then some ([], rest)
    else if c = '\\' then none
    else (parseStr rest).map fun p => (c :: p.1, p.2)

/-- Continuation of the object branch of the value parser: after the opening
brace, either an immediate closing brace (empty object) or the entry list
parsed by `pentr`. -/
def parseObjBody (pentr : Str → Option (List (Str × JVal) × Str)) (rest : Str) :
    Option (JVal × Str) :=
  match skipWs rest with
  | [] => none
  | d :: r1 =>
    if d = '\x7d' then some (.jobj [], r1)
    else (pentr (d :: r1)).map fun p => (.jobj p.1, p.2)

/-- Continuation of the array branch of the value parser. -/
def parseArrBody (pelems : Str → Option (List JVal × Str)) (rest : Str) :
    Option (JVal × Str) :=
  match skipWs rest with
  | [] => none
  | d :: r1 =>
    if d = ']' then some (.jarr [], r1)
    else (pelems (d :: r1)).map fun p => (.jarr p.1, p.2)

/-- After one array element: a comma continues the element list via `pe`, a
closing bracket ends the array, anything else is a syntax error. -/
def parseElemsSep (pe : Str → Option (List JVal × Str)) (v : JVal) (r : Str) :
    Option (List JVal × Str) :=
  match skipWs r with
  | [] => none
  | d :: r2 =>
    if d = ',' then (pe r2).map fun q => (v :: q.1, q.2)
    else if d = ']' then some ([v], r2)
    else none

/-- After one object entry: a comma continues the entry list via `pe`, a
closing brace ends the object, anything else is a syntax error. -/
def parseEntrySep (pe : Str → Option (List (Str × JVal) × Str)) (kk : Str) (v : JVal)
    (r3 : Str) : Option (List (Str × JVal) × Str) :=
  match skipWs r3 with
  | [] => none
  | e :: r4 =>
    if e = ',' then (pe r4).map fun q => ((kk, v) :: q.1, q.2)
    else if e = '\x7d' then some ([(kk, v)], r4)
    else none

/-- After an object key: expect a colon, then the value via `pv`, then the
separator handling via `pe`. -/
def parseEntryColon (pv : Str → Option (JVal × Str))
    (pe : Str → Option (List (Str × JVal) × Str)) (kk : Str) (r1 : Str) :
    Option (List (Str × JVal) × Str) :=
  match skipWs r1 with
  | [] => none
  | d :: r2 =>
    if d = ':' then (pv r2).bind fun vp => parseEntrySep pe kk vp.1 vp.2
    else none

mutual

/-- Recursive-descent JSON value parser modelling `json.loads`' scanner:
skip whitespace, dispatch on the first character (`\x7b` object, `[` array,
`"` string, digit number, else the `null`/`true`/`false` keywords).  The fuel
argument only bounds recursion depth; `json_loads` supplies enough fuel that
it is never exhausted on an input whose parse succeeds. -/
def parseVal : Nat → Str → Option (JVal × Str)
  | 0, _ => none
  | fuel + 1, cs =>
    match skipWs cs with
    | [] => none
    | c :: rest =>
      if c = '\x7b' then parseObjBody (parseEntries fuel) rest
      else if c = '[' then parseArrBody (parseElems fuel) rest
      else if c = '"' then (parseStr rest).map fun p => (.jstr p.1, p.2)
      else if isDigit c then
        some (.jnum (digitsToNat 0 (takeDigits (c :: rest)).1), (takeDigits (c :: rest)).2)
      else if c = 'n' then
        if rest.take 3 = ['u', 'l', 'l'] then some (.jnull, rest.drop 3) else none
      else if c = 't' then
        if rest.take 3 = ['r', 'u', 'e'] then some (.jbool true, rest.drop 3) else none
      else if c = 'f' then
        if rest.take 4 = ['a', 'l', 's', 'e'] then some (.jbool false, rest.drop 4) else none
      else none

/-- Parse the elements of a non-empty JSON array (after the opening bracket
and any leading whitespace), through the closing bracket. -/
def parseElems : Nat → Str → Option (List JVal × Str)
  | 0, _ => none
  | fuel + 1, cs => (parseVal fuel cs).bind fun p => parseElemsSep (parseElems fuel) p.1 p.2

/-- Parse the entries of a non-empty JSON object (after the opening brace and
any leading whitespace), through the closing brace. -/
def parseEntries : Nat → Str → Option (List (Str × JVal) × Str)
  | 0, _ => none
  | fuel + 1, cs =>
    match skipWs cs with
    | [] => none
    | c :: r =>
      if c = '"' then
        (parseStr r).bind fun kp => parseEntryColon (parseVal fuel) (parseEntries fuel) kp.1 kp.2
      else none

end

/-- The embedding of `json.loads`: parse one JSON value and require that only
whitespace follows, else fail (`json.JSONDecodeError`). -/
def json_loads (cs : Str) : Option JVal :=
  match parseVal (2 * cs.length + 4) cs with
  | some (v, rest) => if skipWs rest = [] then some v else none
  | none => none

/-- Indentation for nesting depth `ind`, four spaces per level, as written by
the pretty-printing generator described in the spec (`json.dumps` with
`indent=4`). -/
def pad (ind : Nat) : Str := List.replicate (4 * ind) ' '

mutual

/-- Pretty-printed rendering of a JSON value at nesting depth `ind`, matching
`json.dumps(v, indent=4)`: composite values open on the current line and
close on a fresh line indented to `ind`; empty composites print inline. -/
def ppVal (ind : Nat) : JVal → Str
  | .jnull => 'n' :: 'u' :: 'l' :: 'l' :: []
  | .jbool true => 't' :: 'r' :: 'u' :: 'e' :: []
  | .jbool false => 'f' :: 'a' :: 'l' :: 's' :: 'e' :: []
  | .jnum n => ppNat n
  | .jstr s => '"' :: (s ++ ['"'])
  | .jarr [] => '[' :: ']' :: []
  | .jarr (x :: xs) =>
    '[' :: '\n' :: (ppList (ind + 1) x xs ++ '\n' :: (pad ind ++ [']']))
  | .jobj [] => '\x7b' :: '\x7d' :: []
  | .jobj ((k, v) :: es) =>
    '\x7b' :: '\n' :: (ppEntries (ind + 1) k v es ++ '\n' :: (pad ind ++ ['\x7d']))
termination_by v => sizeOf v
decreasing_by all_goals simp_arith

/-- Pretty-printed array items, one per line at depth `ind`, comma-separated. -/
def ppList (ind : Nat) (x : JVal) : List JVal → Str
  | [] => pad ind ++ ppVal ind x
  | y :: ys => pad ind ++ ppVal ind x ++ ',' :: '\n' :: ppList ind y ys
termination_by xs => 1 + sizeOf x + sizeOf xs
decreasing_by all_goals simp_arith

/-- Pretty-printed object entries, one per line at depth `ind`. -/
def ppEntries (ind : Nat) (k : Str) (v : JVal) : List (Str × JVal) → Str
  | [] => pad ind ++ '"' :: (k ++ '"' :: ':' :: ' ' :: ppVal ind v)
  | (l, w) :: fs =>
    pad ind ++ '"' :: (k ++ '"' :: ':' :: ' ' :: ppVal ind v) ++
      ',' :: '\n' :: ppEntries ind l w fs
termination_by es => 1 + sizeOf v + sizeOf es
decreasing_by all_goals simp_arith

end

mutual

/-- Parser fuel needed for a value: one unit per `parseVal`, `parseElems` or
`parseEntries` call made while parsing its rendering. -/
def cost : JVal → Nat
  | .jnull => 1
  | .jbool _ => 1
  | .jnum _ => 1
  | .jstr _ => 1
  | .jarr [] => 1
  | .jarr (x :: xs) => 1 + elemsCost x xs
  | .jobj [] => 1
  | .jobj ((_, v) :: es) => 1 + entsCost v es
termination_by v => sizeOf v
decreasing_by all_goals simp_arith

/-- Parser fuel needed for a non-empty array's element list. -/
def elemsCost (x : JVal) : List JVal → Nat
  | [] => 1 + cost x
  | y :: ys => 1 + cost x + elemsCost y ys
termination_by xs => 1 + sizeOf x + sizeOf xs
decreasing_by all_goals simp_arith

/-- Parser fuel needed for a non-empty object's entry list. -/
def entsCost (v : JVal) : List (Str × JVal) → Nat
  | [] => 1 + cost v
  | (_, w) :: fs => 1 + cost v + entsCost w fs
termination_by es => 1 + sizeOf v + sizeOf es
decreasing_by all_goals simp_arith

end

/-- A string literal body that round-trips through the modelled parser and
printer: free of quotes, backslashes and newlines (valid pretty-printed JSON
escapes all three). -/
def safeStr (s : Str) : Bool := s.all fun c => c ≠ '"' && c ≠ '\\' && c ≠ '\n'

mutual

/-- A value whose rendering is well-behaved: every embedded string and key is
`safeStr`. -/
def safe : JVal → Bool
  | .jnull => true
  | .jbool _ => true
  | .jnum _ => true
  | .jstr s => safeStr s
  | .jarr xs => safeList xs
  | .jobj es => safeObj es

/-- All values in the list are `safe`. -/
def safeList : List JVal → Bool
  | [] => true
  | x :: xs => safe x && safeList xs

/-- All keys are `safeStr` and all values `safe`. -/
def safeObj : List (Str × JVal) → Bool
  | [] => true
  | (k, v) :: es => safeStr k && safe v && safeObj es

end

/-- Every newline in the text is immediately followed by a space.  This holds
of every pretty-printed fragment nested at depth ≥ 1 and is what keeps the
regex of `repair_json` from firing inside an object. -/
def nlOk : Str → Bool
  | [] => true
  | c :: rest => (c ≠ '\n' || rest.head? = some ' ') && nlOk rest

/-- Whether the regex `\n\}[\n$]` of `repair_json` matches at the head of the
text (`$` is a literal dollar inside a character class). -/
def match3 : Str → Bool
  | a :: b :: c :: _ => a = '\n' && b = '\x7d' && (c = '\n' || c = '$')
  | _ => false

/-- No match of the regex starts inside `l` when `l` is followed by `sfx`. -/
def bridgeFree : Str → Str → Bool
  | [], _ => true
  | c :: t, sfx => !match3 (c :: (t ++ sfx)) && bridgeFree t sfx

/-- The substitution `re.sub(r'\n\}[\n$]', r'\n},\n', s)` of `repair_json`:
scan left to right; wherever a newline is followed by a closing brace and one
character that is a newline or a literal dollar sign, emit the brace with a
comma and newline and resume after the match; otherwise copy one character. -/
def pySub : Str → Str
  | a :: b :: c :: rest =>
    if a = '\n' ∧ b = '\x7d' ∧ (c = '\n' ∨ c = '$') then
      a :: b :: ',' :: '\n' :: pySub rest
    else a :: pySub (b :: c :: rest)
  | l => l

/-- The boundary insertion exactly as claim C5 words it: a closing brace
immediately followed by a newline and then either end-of-string or another
newline is replaced by the brace, a comma and a newline; no other position is
modified. -/
def specBoundarySub : Str → Str
  | '\x7d' :: '\n' :: rest =>
    if rest = [] ∨ rest.head? = some '\n' then
      '\x7d' :: ',' :: '\n' :: specBoundarySub rest
    else '\x7d' :: specBoundarySub ('\n' :: rest)
  | c :: rest => c :: specBoundarySub rest
  | [] => []

/-- Generic leftmost, non-overlapping find-and-replace: `mt` reports how many
characters a match at the current position consumes and the replacement text.
A report consuming zero characters counts as no match. -/
def genSub (mt : Str → Option (Nat × Str)) : Str → Str
  | [] => []
  | c :: rest =>
    match mt (c :: rest) with
    | some (n, repl) =>
      if n = 0 then c :: genSub mt rest
      else repl ++ genSub mt (List.drop (n - 1) rest)
    | none => c :: genSub mt rest
termination_by l => l.length
decreasing_by all_goals (simp only [List.length_drop, List.length_cons]; omega)

/-- The matcher describing the amended boundary rule: a newline, then a
closing brace, then one character that is either a newline or a literal
dollar sign; replaced by newline, brace, comma, newline. -/
def boundaryMatch (l : Str) : Option (Nat × Str) :=
  match l with
  | a :: b :: c :: _ =>
    if a = '\n' ∧ b = '\x7d' ∧ (c = '\n' ∨ c = '$') then
      some (3, '\n' :: '\x7d' :: ',' :: '\n' :: [])
    else none
  | _ => none

/-- Python string indexing: non-negative indices below the length read
directly, negative indices from `-len` wrap to the end of the string, and
anything else raises `IndexError`. -/
def charAtPy (s : Str) (i : Int) : Except PyErr Char :=
  if 0 ≤ i ∧ i < s.length then
    .ok (s.getD i.toNat ' ')
  else if -(s.length : Int) ≤ i ∧ i < 0 then
    .ok (s.getD ((s.length : Int) + i).toNat ' ')
  else .error .indexError

/-- The backward scan `while repaired[comma_pos] != ',': comma_pos -= 1` of
`repair_json`, stepped with explicit fuel.  `lastCommaScan` supplies fuel
exceeding the maximal number of iterations the Python loop can perform
before `IndexError` (one full pass plus one wrapped pass), so fuel exhaustion
is unreachable; its default is the same `IndexError` outcome. -/
def commaScanLoop (s : Str) : Nat → Int → Except PyErr Int
  | 0, _ => .error .indexError
  | fuel + 1, i =>
    match charAtPy s i with
    | .error e => .error e
    | .ok c => if c = ',' then .ok i else commaScanLoop s fuel (i - 1)

/-- The backward last-comma search of `repair_json`, starting at the last
character. -/
def lastCommaScan (s : Str) : Except PyErr Int :=
  commaScanLoop s (2 * s.length + 2) ((s.length : Int) - 1)

/-- The left wrapper text `{ "contents": [` prepended by `repair_json`. -/
def wrapL : Str := '\x7b' :: ' ' :: '"' :: ("contents".data ++ '"' :: ':' :: ' ' :: '[' :: [])

/-- The right wrapper text `]}` appended by `repair_json`. -/
def wrapR : Str := ']' :: '\x7d' :: []

/-- The `repair_json` function of main.py: insert commas at object
boundaries, truncate at the last comma found by the unguarded backward scan,
wrap as `{ "contents": [ ... ]}` and parse. -/
def repair_json (in_str : Str) : Except PyErr JVal :=
  let repaired := pySub in_str
  match lastCommaScan repaired with
  | .error e => .error e
  | .ok commaPos =>
    let wrapped := wrapL ++ repaired.take commaPos.toNat ++ wrapR
    match json_loads wrapped with
    | some v => .ok v
    | none => .error .jsonError

/-- Python dictionary read `d[k]`: `KeyError` on a missing key, `TypeError`
when the value subscripted with a string key is not a dictionary. -/
def pyGet (v : JVal) (k : Str) : Except PyErr JVal :=
  match v with
  | .jobj es =>
    match es.lookup k with
    | some x => .ok x
    | none => .error (.keyError k)
  | _ => .error .typeError

/-- Python iteration over a value that the embedded code expects to be a
list; iteration over anything else is modelled as `TypeError`. -/
def asArr : JVal → Except PyErr (List JVal)
  | .jarr xs => .ok xs
  | _ => .error .typeError

/-- Python comparison of a value against an int bound (`x < bound`);
`TypeError` when the value is not a number. -/
def asNum : JVal → Except PyErr Nat
  | .jnum n => .ok n
  | _ => .error .typeError

/-- The comprehension `[e[k] for e in xs]`. -/
def mapGetKey (k : Str) : List JVal → Except PyErr (List JVal)
  | [] => .ok []
  | x :: rest => do
    let v ← pyGet x k
    let t ← mapGetKey k rest
    .ok (v :: t)

/-- The comprehension `[e['name'] for e in xs if e['order'] < bound]` used by
Task2 and Task4. -/
def pluckOrdered (bound : Nat) : List JVal → Except PyErr (List JVal)
  | [] => .ok []
  | x :: rest => do
    let o ← pyGet x "order".data
    let n ← asNum o
    if n < bound then do
      let nm ← pyGet x "name".data
      let t ← pluckOrdered bound rest
      .ok (nm :: t)
    else pluckOrdered bound rest

/-- The comprehension `[w['name'] for w in crew if w['job'] == 'Director']`
of Task2. -/
def pluckDirectors : List JVal → Except PyErr (List JVal)
  | [] => .ok []
  | w :: rest => do
    let j ← pyGet w "job".data
    if j = JVal.jstr "Director".data then do
      let nm ← pyGet w "name".data
      let t ← pluckDirectors rest
      .ok (nm :: t)
    else pluckDirectors rest

/-- State shared by every `TaskTransformer`: the deduplication set
`__titles` (a Python set of the looked-up title values) plus the
variant-specific column store. -/
structure TTState (σ : Type) where
  titles : List JVal
  data : σ
deriving DecidableEq

/-- The method `TaskTransformer.consume`: evaluate the movie filter (reading
`media_type` only when the transformer is movies-only), then the membership
test on the title key; when both pass, run the variant `_consume_impl` and
register the title.  Rejection is a silent no-op. -/
def consume (for_movies_only : Bool) (title_key : Str)
    (impl : σ → JVal → JVal → Except PyErr σ)
    (st : TTState σ) (json_dict meta : JVal) : Except PyErr (TTState σ) := do
  let pass1 ←
    if for_movies_only then do
      let mt ← pyGet json_dict "media_type".data
      pure (decide (mt = JVal.jstr "MOVIE".data))
    else pure true
  if pass1 then do
    let t ← pyGet json_dict title_key
    if t ∈ st.titles then pure st
    else do
      let d ← impl st.data json_dict meta
      pure ⟨t :: st.titles, d⟩
  else pure st

/-- Column store of Task1 (`reviews`, `rating`, `film_title`). -/
structure T1Data where
  reviews : List JVal
  rating : List JVal
  film_title : List JVal
deriving DecidableEq

/-- Initial (empty) Task1 store. -/
def T1Data.init : T1Data := ⟨[], [], []⟩

/-- Task1's `_consume_impl`: review contents, `vote_average`, `title`. -/
def task1_consume_impl (d : T1Data) (json_dict meta : JVal) : Except PyErr T1Data := do
  let rv ← pyGet json_dict "reviews".data
  let items ← asArr rv
  let contents ← mapGetKey "content".data items
  let rat ← pyGet json_dict "vote_average".data
  let tt ← pyGet json_dict "title".data
  .ok ⟨d.reviews ++ [.jarr contents], d.rating ++ [rat], d.film_title ++ [tt]⟩

/-- Column store of Task2. -/
structure T2Data where
  popularity : List JVal
  directors : List JVal
  actors : List JVal
  budget : List JVal
  runtime : List JVal
  film_title : List JVal
deriving DecidableEq

/-- Initial (empty) Task2 store. -/
def T2Data.init : T2Data := ⟨[], [], [], [], [], []⟩

/-- Task2's `_consume_impl`: title, popularity, actors with `order < 100`,
directors from the crew, budget, runtime. -/
def task2_consume_impl (d : T2Data) (json_dict meta : JVal) : Except PyErr T2Data := do
  let tt ← pyGet json_dict "title".data
  let pop ← pyGet json_dict "popularity".data
  let castv ← pyGet json_dict "cast".data
  let castL ← asArr castv
  let acts ← pluckOrdered 100 castL
  let crewv ← pyGet json_dict "crew".data
  let crewL ← asArr crewv
  let dirs ← pluckDirectors crewL
  let bud ← pyGet json_dict "budget".data
  let run ← pyGet json_dict "runtime".data
  .ok ⟨d.popularity ++ [pop], d.directors ++ [.jarr dirs], d.actors ++ [.jarr acts],
       d.budget ++ [bud], d.runtime ++ [run], d.film_title ++ [tt]⟩

/-- Column store of Task3. -/
structure T3Data where
  region : List JVal
  popularity : List JVal
  media_type : List JVal
  title : List JVal
  genres : List JVal
deriving DecidableEq

/-- Initial (empty) Task3 store. -/
def T3Data.init : T3Data := ⟨[], [], [], [], []⟩

/-- Task3's `_consume_impl`: title, region from the metadata, popularity,
media type, genre id list. -/
def task3_consume_impl (d : T3Data) (json_dict meta : JVal) : Except PyErr T3Data := do
  let tt ← pyGet json_dict "title".data
  let reg ← pyGet meta "region".data
  let pop ← pyGet json_dict "popularity".data
  let mt ← pyGet json_dict "media_type".data
  let gv ← pyGet json_dict "genre_ids".data
  let gs ← asArr gv
  .ok ⟨d.region ++ [reg], d.popularity ++ [pop], d.media_type ++ [mt],
       d.title ++ [tt], d.genres ++ [.jarr gs]⟩

/-- Column store of Task4. -/
structure T4Data where
  title : List JVal
  seasons : List JVal
  actors : List JVal
  created_by : List JVal
  status : List JVal
  popularity : List JVal
  rating : List JVal
deriving DecidableEq

/-- Initial (empty) Task4 store. -/
def T4Data.init : T4Data := ⟨[], [], [], [], [], [], []⟩

/-- Task4's `_consume_impl`: guarded by
`json_dict['number_of_seasons'] is not None and ... >= 1`; when the guard
fails the store is left untouched (but `consume` still registers the name). -/
def task4_consume_impl (d : T4Data) (json_dict meta : JVal) : Except PyErr T4Data := do
  let seasons ← pyGet json_dict "number_of_seasons".data
  match seasons with
  | .jnull => .ok d
  | .jnum n =>
    if n ≥ 1 then do
      let nm ← pyGet json_dict "name".data
      let credits ← pyGet json_dict "credits".data
      let castv ← pyGet credits "cast".data
      let castL ← asArr castv
      let cast ← pluckOrdered 20 castL
      let cbv ← pyGet json_dict "created_by".data
      let cbL ← asArr cbv
      let cbs ← mapGetKey "name".data cbL
      let stat ← pyGet json_dict "status".data
      let pop ← pyGet json_dict "popularity".data
      let rat ← pyGet json_dict "vote_average".data
      .ok ⟨d.title ++ [nm], d.seasons ++ [seasons], d.actors ++ [.jarr cast],
           d.created_by ++ [.jarr cbs], d.status ++ [stat],
           d.popularity ++ [pop], d.rating ++ [rat]⟩
    else .ok d
  | _ => .error .typeError

/-- Column store of Task5. -/
structure T5Data where
  media_type : List JVal
  production_countries : List JVal
  production_companies : List JVal
  popularity : List JVal
  rating : List JVal
  title : List JVal
deriving DecidableEq

/-- Initial (empty) Task5 store. -/
def T5Data.init : T5Data := ⟨[], [], [], [], [], []⟩

/-- Task5's `_consume_impl`: media type, production country and company
names, popularity, `vote_average`, title. -/
def task5_consume_impl (d : T5Data) (json_dict meta : JVal) : Except PyErr T5Data := do
  let mt ← pyGet json_dict "media_type".data
  let pcv ← pyGet json_dict "production_countries".data
  let pcL ← asArr pcv
  let pcs ← mapGetKey "name".data pcL
  let pov ← pyGet json_dict "production_companies".data
  let poL ← asArr pov
  let pos ← mapGetKey "name".data poL
  let pop ← pyGet json_dict "popularity".data
  let rat ← pyGet json_dict "vote_average".data
  let tt ← pyGet json_dict "title".data
  .ok ⟨d.media_type ++ [mt], d.production_countries ++ [.jarr pcs],
       d.production_companies ++ [.jarr pos], d.popularity ++ [pop],
       d.rating ++ [rat], d.title ++ [tt]⟩

/-- Task1's `consume` (movies-only, title key `title`). -/
def consumeT1 : TTState T1Data → JVal → JVal → Except PyErr (TTState T1Data) :=
  consume true "title".data task1_consume_impl

/-- Task2's `consume` (movies-only, title key `title`). -/
def consumeT2 : TTState T2Data → JVal → JVal → Except PyErr (TTState T2Data) :=
  consume true "title".data task2_consume_impl

/-- Task3's `consume` (not movies-only, title key `title`). -/
def consumeT3 : TTState T3Data → JVal → JVal → Except PyErr (TTState T3Data) :=
  consume false "title".data task3_consume_impl

/-- Task4's `consume` (not movies-only, title key `name`). -/
def consumeT4 : TTState T4Data → JVal → JVal → Except PyErr (TTState T4Data) :=
  consume false "name".data task4_consume_impl

/-- Task5's `consume` (movies-only, title key `title`). -/
def consumeT5 : TTState T5Data → JVal → JVal → Except PyErr (TTState T5Data) :=
  consume true "title".data task5_consume_impl


/-- Fold `consume` over a sequence of (record, metadata) pairs, as the
`process` loop of a TaskGroup dispatches records to one transformer. -/
def consumeMany (step : TTState σ → JVal → JVal → Except PyErr (TTState σ))
    (st : TTState σ) : List (JVal × JVal) → Except PyErr (TTState σ)
  | [] => .ok st
  | (r, m) :: rest => do
    let st1 ← step st r m
    consumeMany step st1 rest

/-- Row count of the Task1 store. -/
def rowsT1 (d : T1Data) : Nat := d.film_title.length

/-- Row count of the Task2 store. -/
def rowsT2 (d : T2Data) : Nat := d.film_title.length

/-- Row count of the Task3 store. -/
def rowsT3 (d : T3Data) : Nat := d.title.length

/-- Row count of the Task4 store. -/
def rowsT4 (d : T4Data) : Nat := d.title.length

/-- Row count of the Task5 store. -/
def rowsT5 (d : T5Data) : Nat := d.title.length

/-- All Task1 columns have the same length. -/
def balancedT1 (d : T1Data) : Prop :=
  d.reviews.length = rowsT1 d ∧ d.rating.length = rowsT1 d

/-- All Task2 columns have the same length. -/
def balancedT2 (d : T2Data) : Prop :=
  d.popularity.length = rowsT2 d ∧ d.directors.length = rowsT2 d ∧
    d.actors.length = rowsT2 d ∧ d.budget.length = rowsT2 d ∧
    d.runtime.length = rowsT2 d

/-- All Task3 columns have the same length. -/
def balancedT3 (d : T3Data) : Prop :=
  d.region.length = rowsT3 d ∧ d.popularity.length = rowsT3 d ∧
    d.media_type.length = rowsT3 d ∧ d.genres.length = rowsT3 d

/-- All Task4 columns have the same length. -/
def balancedT4 (d : T4Data) : Prop :=
  d.seasons.length = rowsT4 d ∧ d.actors.length = rowsT4 d ∧
    d.created_by.length = rowsT4 d ∧ d.status.length = rowsT4 d ∧
    d.popularity.length = rowsT4 d ∧ d.rating.length = rowsT4 d

/-- All Task5 columns have the same length. -/
def balancedT5 (d : T5Data) : Prop :=
  d.media_type.length = rowsT5 d ∧ d.production_countries.length = rowsT5 d ∧
    d.production_companies.length = rowsT5 d ∧ d.popularity.length = rowsT5 d ∧
    d.rating.length = rowsT5 d

/-- Whether a record passes Task4's season guard: `number_of_seasons` present,
not null and at least 1 (written from the spec's description of the guard, as
the declarative acceptance condition the store growth is compared against). -/
def seasonOk (r : JVal) : Bool :=
  match pyGet r "number_of_seasons".data with
  | .ok (.jnum n) => decide (n ≥ 1)
  | _ => false

/-- Declarative count of accepted records for a transformer: a record is
counted when it passes the movie filter (if any), its title key value is not
yet registered, and the variant-specific guard `inc` grants it a row; the
registered-title set is threaded exactly as `consume` registers titles.
Written from the spec's wording "number of accepted (non-deduplicated,
non-filtered) Records"; a record whose required lookups fail contributes
nothing (the run it is compared to has failed by then). -/
def acceptedCount (for_movies_only : Bool) (title_key : Str) (inc : JVal → Nat) :
    List JVal → List (JVal × JVal) → Nat
  | _, [] => 0
  | titles, (r, _) :: rest =>
    let pass1 :=
      if for_movies_only then
        match pyGet r "media_type".data with
        | .ok mt => decide (mt = JVal.jstr "MOVIE".data)
        | .error _ => false
      else true
    if pass1 then
      match pyGet r title_key with
      | .ok t =>
        if t ∈ titles then acceptedCount for_movies_only title_key inc titles rest
        else inc r + acceptedCount for_movies_only title_key inc (t :: titles) rest
      | .error _ => 0
    else acceptedCount for_movies_only title_key inc titles rest

/-- The three task groups, in the fixed order the driver instantiates them. -/
inductive GroupName where
  | movies : GroupName
  | regions : GroupName
  | shows : GroupName
deriving DecidableEq

/-- The driver's group list `[MovieTasksTransformer, RegionTasksTransformer,
ShowTasksTransformer]`. -/
def groupOrder : List GroupName := [.movies, .regions, .shows]

/-- The wrapper `process_task_group` of main.py: run one group's `process`
and catch `except RuntimeError` only; the group's `process` performs file
I/O, so its outcome is passed in as a value.  `none` means the wrapper
returns normally (success, or a caught-and-printed `RuntimeError`); `some e`
means the exception `e` escapes the wrapper. -/
def process_task_group (outcome : Except PyErr Unit) : Option PyErr :=
  match outcome with
  | .ok _ => none
  | .error .runtimeError => none
  | .error e => some e

/-- The driver loop of `run_task_transformers`, recorded as the list of
groups whose `process` was invoked plus the exception (if any) that escaped
and aborted the loop. -/
def runGroups (outcomes : GroupName → Except PyErr Unit) :
    List GroupName → List GroupName × Option PyErr
  | [] => ([], none)
  | g :: rest =>
    match process_task_group (outcomes g) with
    | none =>
      let p := runGroups outcomes rest
      (g :: p.1, p.2)
    | some e => ([g], some e)

/-- The driver `run_task_transformers` of main.py, over the fixed group
order. -/
def run_task_transformers (outcomes : GroupName → Except PyErr Unit) :
    List GroupName × Option PyErr :=
  runGroups outcomes groupOrder

/-- The pretty-printed rendering of one top-level record object, as the
generator described in the spec writes it. -/
def ppTop (es : List (Str × JVal)) : Str := ppVal 0 (.jobj es)

/-- A raw input file: the concatenation of pretty-printed record objects,
each terminated by a closing brace followed by a newline, with no
separators. -/
def blocksText (os : List (List (Str × JVal))) : Str :=
  (os.map fun es => ppTop es ++ ['\n']).flatten

/-- The record objects joined by `,\n`, which is what survives of
`blocksText` after boundary insertion and truncation at the last comma. -/
def bodyText : List (List (Str × JVal)) → Str
  | [] => []
  | [es] => ppTop es
  | es :: rest => ppTop es ++ ',' :: '\n' :: bodyText rest

/-- Every block is a non-empty object with well-behaved strings, i.e. a
multi-line pretty-printed record whose closing brace sits alone at the start
of its final line. -/
def goodBlocks (os : List (List (Str × JVal))) : Bool :=
  os.all fun es => !es.isEmpty && safeObj es

/-- The text does not begin with a decimal digit (so a number token ends
cleanly against it). -/
def digitBoundary (l : Str) : Bool :=
  match l with
  | [] => true
  | c :: _ => !isDigit c

/-- Parser fuel consumed while parsing the element chain of the wrapped
document's `contents` array. -/
def chainCost : List (List (Str × JVal)) → Nat
  | [] => 1
  | es :: rest => 1 + cost (.jobj es) + chainCost rest

/-- What follows the first element of a pretty-printed array inside the
wrapped text: either the closing bracket line, or a comma, a newline and the
remaining items. -/
def elemsTail (ind pind : Nat) (xs : List JVal) (rest : Str) : Str :=
  match xs with
  | [] => '\n' :: (pad pind ++ ']' :: rest)
  | y :: ys => ',' :: '\n' :: (ppList ind y ys ++ '\n' :: (pad pind ++ ']' :: rest))

/-- What follows the first entry of a pretty-printed object inside the
wrapped text. -/
def entsTail (ind pind : Nat) (es : List (Str × JVal)) (rest : Str) : Str :=
  match es with
  | [] => '\n' :: (pad pind ++ '\x7d' :: rest)
  | (l, w) :: fs => ',' :: '\n' :: (ppEntries ind l w fs ++ '\n' :: (pad pind ++ '\x7d' :: rest))

/-- The movie-filter prefix of `consume`: the outcome of evaluating
`not self.__for_movies_only or json_dict['media_type'] == 'MOVIE'`, which
reads `media_type` only when the transformer is movies-only. -/
def moviePass : Bool → JVal → Except PyErr Bool
  | false, _ => .ok true
  | true, r =>
    match pyGet r "media_type".data with
    | .ok mt => .ok (decide (mt = JVal.jstr "MOVIE".data))
    | .error e => .error e

/-- Sample show record: `name` present, `number_of_seasons` null. -/
def rShowNull : JVal :=
  .jobj [("name".data, .jstr "A".data), ("number_of_seasons".data, .jnull)]

/-- Sample show record with one season and every field Task4 reads. -/
def rShowOne : JVal :=
  .jobj [("name".data, .jstr "A".data), ("number_of_seasons".data, .jnum 1),
         ("credits".data, .jobj [("cast".data, .jarr [])]),
         ("created_by".data, .jarr []),
         ("status".data, .jstr "OK".data),
         ("popularity".data, .jnum 5),
         ("vote_average".data, .jnum 7)]

/-- Sample movie record with every field Task1 reads. -/
def rMovie : JVal :=
  .jobj [("media_type".data, .jstr "MOVIE".data), ("title".data, .jstr "T".data),
         ("reviews".data, .jarr []), ("vote_average".data, .jnum 5)]

/-- Sample record carrying only a `title` (no `media_type`). -/
def rNoMedia : JVal := .jobj [("title".data, .jstr "T".data)]

/-- Sample television record with every field Task1 reads. -/
def rTv : JVal :=
  .jobj [("media_type".data, .jstr "TV".data), ("title".data, .jstr "T".data),
         ("reviews".data, .jarr []), ("vote_average".data, .jnum 5)]

/-- Sample record carrying a `title` and a `name` but no `media_type`. -/
def rTitleName : JVal :=
  .jobj [("title".data, .jstr "T".data), ("name".data, .jstr "T".data)]

/-- Sample driver outcome map: the Movies group raises `RuntimeError`, the
other groups return normally. -/
def sampleOutcomes : GroupName → Except PyErr Unit
  | .movies => .error .runtimeError
  | _ => .ok ()

theorem pySub_cons_no (a b c : Char) (r : Str)
    (h : ¬(a = '\n' ∧ b = '\x7d' ∧ (c = '\n' ∨ c = '$'))) :
    pySub (a :: b :: c :: r) = a :: pySub (b :: c :: r) := by
  simp only [pySub, if_neg h]

theorem pySub_hit (c : Char) (r : Str) (hc : c = '\n' ∨ c = '$') :
    pySub ('\n' :: '\x7d' :: c :: r) = '\n' :: '\x7d' :: ',' :: '\n' :: pySub r := by
  rcases hc with rfl | rfl <;> simp [pySub]

theorem pySub_cons_of_not_match3 (c : Char) (t : Str) (h : match3 (c :: t) = false) :
    pySub (c :: t) = c :: pySub t := by
  match t with
  | [] => rfl
  | [b] => rfl
  | b :: d :: r =>
    refine pySub_cons_no c b d r ?_
    rintro ⟨rfl, rfl, h3⟩
    rcases h3 with rfl | rfl <;> simp [match3] at h

theorem pySub_bridge : ∀ (pfx sfx : Str), bridgeFree pfx sfx = true →
    pySub (pfx ++ sfx) = pfx ++ pySub sfx
  | [], sfx, _ => rfl
  | c :: t, sfx, h => by
    simp only [bridgeFree, Bool.and_eq_true, Bool.not_eq_true'] at h
    have h2 := pySub_bridge t sfx h.2
    simp only [List.cons_append]
    rw [pySub_cons_of_not_match3 c (t ++ sfx) h.1, h2]

theorem nlOk_tail (c : Char) (t : Str) (h : nlOk (c :: t) = true) : nlOk t = true := by
  simp only [nlOk, Bool.and_eq_true] at h
  exact h.2

theorem nlOk_append : ∀ (x y : Str), nlOk x = true → nlOk y = true →
    nlOk (x ++ y) = true
  | [], _, _, hy => hy
  | c :: t, y, hx, hy => by
    simp only [nlOk, Bool.and_eq_true, Bool.or_eq_true, decide_eq_true_eq] at hx ⊢
    obtain ⟨hc, ht⟩ := hx
    refine ⟨?_, nlOk_append t y ht hy⟩
    rcases hc with hc | hc
    · exact Or.inl hc
    · right
      cases t with
      | nil => simp at hc
      | cons a t2 => simpa using hc

theorem nlOk_cons_of_ne (c : Char) (t : Str) (hc : c ≠ '\n') (h : nlOk t = true) :
    nlOk (c :: t) = true := by
  simp only [nlOk, Bool.and_eq_true, Bool.or_eq_true, decide_eq_true_eq]
  exact ⟨Or.inl hc, h⟩

theorem nlOk_pad (k : Nat) : nlOk (pad k) = true := by
  induction k with
  | zero => rfl
  | succ n ih =>
    have : pad (n + 1) = ' ' :: ' ' :: ' ' :: ' ' :: pad n := by
      simp [pad, Nat.mul_succ, Nat.add_comm, List.replicate_add]
    rw [this]
    iterate 4 (refine nlOk_cons_of_ne _ _ (by decide) ?_)
    exact ih

theorem bridgeFree_of_nlOk : ∀ (l sfx : Str), nlOk l = true →
    sfx.head? ≠ some '\x7d' → bridgeFree l sfx = true
  | [], _, _, _ => rfl
  | c :: t, sfx, hl, hs => by
    simp only [bridgeFree, Bool.and_eq_true, Bool.not_eq_true']
    refine ⟨?_, bridgeFree_of_nlOk t sfx (nlOk_tail c t hl) hs⟩
    simp only [nlOk, Bool.and_eq_true, Bool.or_eq_true, decide_eq_true_eq] at hl
    rcases t with _ | ⟨a, t2⟩
    · have hc : c ≠ '\n' := by
        rcases hl.1 with hc | hc
        · exact hc
        · simp at hc
      rcases sfx with _ | ⟨s0, s1⟩
      · rfl
      · rcases s1 with _ | ⟨s2, s3⟩
        · rfl
        · simp [match3, hc]
    · have ha : c ≠ '\n' ∨ a = ' ' := by
        rcases hl.1 with hc | hc
        · exact Or.inl hc
        · exact Or.inr (by simpa using hc)
      cases hX : t2 ++ sfx with
      | nil => simp [match3, hX]
      | cons d r =>
        simp only [List.cons_append, hX]
        rcases ha with ha | ha
        · simp [match3, ha]
        · simp [match3, ha]

theorem isDigit_digitChar (d : Nat) (h : d < 10) : isDigit (digitChar d) = true := by
  interval_cases d <;> decide

theorem digitVal_digitChar (d : Nat) (h : d < 10) : digitVal (digitChar d) = d := by
  interval_cases d <;> decide

theorem ne_nl_of_isDigit (c : Char) (h : isDigit c = true) : c ≠ '\n' := by
  intro he; rw [he] at h; exact absurd h (by decide)

theorem natDigitsRev_digits (n : Nat) : ∀ c ∈ natDigitsRev n, isDigit c = true := by
  induction n using Nat.strong_induction_on with
  | _ n ih =>
    rw [natDigitsRev]
    by_cases h : n = 0
    · simp [h]
    · simp only [h, dite_false, List.mem_cons]
      rintro c (rfl | hc)
      · exact isDigit_digitChar _ (Nat.mod_lt n (by omega))
      · exact ih (n / 10) (Nat.div_lt_self (Nat.pos_of_ne_zero h) (by omega)) c hc

theorem ppNat_digits (n : Nat) : ∀ c ∈ ppNat n, isDigit c = true := by
  unfold ppNat
  by_cases h : n = 0
  · simp [h]; decide
  · simp only [h, ite_false, List.mem_reverse]
    exact natDigitsRev_digits n

theorem ppNat_ne_nil (n : Nat) : ppNat n ≠ [] := by
  unfold ppNat
  by_cases h : n = 0
  · simp [h]
  · simp only [h, ite_false, ne_eq, List.reverse_eq_nil_iff]
    rw [natDigitsRev]
    simp [h]

theorem digitsToNat_append (acc : Nat) (xs : Str) (c : Char) :
    digitsToNat acc (xs ++ [c]) = digitsToNat acc xs * 10 + digitVal c := by
  induction xs generalizing acc with
  | nil => rfl
  | cons a t ih =>
    rw [List.cons_append]
    show digitsToNat (acc * 10 + digitVal a) (t ++ [c]) = _
    rw [ih]
    rfl

theorem digitsToNat_natDigitsRev (n : Nat) :
    digitsToNat 0 (natDigitsRev n).reverse = n := by
  induction n using Nat.strong_induction_on with
  | _ n ih =>
    by_cases hn : n = 0
    · subst hn
      rw [natDigitsRev]
      rfl
    · rw [natDigitsRev]
      simp only [hn, dite_false, List.reverse_cons]
      rw [digitsToNat_append]
      rw [ih (n / 10) (Nat.div_lt_self (Nat.pos_of_ne_zero hn) (by omega))]
      rw [digitVal_digitChar _ (Nat.mod_lt n (by omega))]
      omega

theorem digitsToNat_ppNat (n : Nat) : digitsToNat 0 (ppNat n) = n := by
  by_cases h : n = 0
  · subst h
    rfl
  · rw [ppNat, if_neg h]
    exact digitsToNat_natDigitsRev n

theorem takeDigits_all (ds rest : Str) (hd : ∀ c ∈ ds, isDigit c = true)
    (hr : digitBoundary rest = true) : takeDigits (ds ++ rest) = (ds, rest) := by
  induction ds with
  | nil =>
    cases rest with
    | nil => rfl
    | cons c r =>
      simp only [digitBoundary, Bool.not_eq_true'] at hr
      simp [takeDigits, hr]
  | cons c t ih =>
    have hc : isDigit c = true := hd c (by simp)
    have ih2 := ih fun x hx => hd x (by simp [hx])
    simp only [List.cons_append, takeDigits, hc, if_true, List.append_eq, ih2]

theorem nlOk_of_no_nl : ∀ l : Str, (∀ c ∈ l, ¬ c = '\n') → nlOk l = true
  | [], _ => rfl
  | c :: t, h => by
    simp only [nlOk, Bool.and_eq_true, Bool.or_eq_true, decide_eq_true_eq]
    exact ⟨Or.inl (h c (by simp)), nlOk_of_no_nl t (fun x hx => h x (by simp [hx]))⟩

theorem pad_cons (k : Nat) (h : 1 ≤ k) :
    pad k = ' ' :: List.replicate (4 * k - 1) ' ' := by
  have h4 : 4 * k = (4 * k - 1) + 1 := by omega
  calc pad k = List.replicate ((4 * k - 1) + 1) ' ' := by rw [pad, ← h4]
  _ = ' ' :: List.replicate (4 * k - 1) ' ' := List.replicate_succ ' ' _

theorem safeStr_no_nl (s : Str) (h : safeStr s = true) : ∀ c ∈ s, ¬ c = '\n' := by
  intro c hc
  simp only [safeStr, List.all_eq_true] at h
  have := h c hc
  simp only [Bool.and_eq_true, decide_eq_true_eq] at this
  exact this.2

theorem skipWs_cons_ws (c : Char) (t : Str) (h : isWs c = true) :
    skipWs (c :: t) = skipWs t := by
  simp [skipWs, h]

theorem skipWs_cons_not_ws (c : Char) (t : Str) (h : isWs c = false) :
    skipWs (c :: t) = c :: t := by
  simp [skipWs, h]

theorem skipWs_append_ws : ∀ (w l : Str), wsOnly w = true → skipWs (w ++ l) = skipWs l
  | [], _, _ => rfl
  | c :: t, l, h => by
    simp only [wsOnly, List.all_cons, Bool.and_eq_true] at h
    rw [List.cons_append, skipWs_cons_ws c _ h.1]
    exact skipWs_append_ws t l h.2

theorem wsOnly_pad (k : Nat) : wsOnly (pad k) = true := by
  simp [wsOnly, pad, List.all_eq_true, isWs]

theorem skipWs_pad (k : Nat) (l : Str) : skipWs (pad k ++ l) = skipWs l :=
  skipWs_append_ws (pad k) l (wsOnly_pad k)

theorem parseStr_safe : ∀ (s rest : Str), safeStr s = true →
    parseStr (s ++ '"' :: rest) = some (s, rest)
  | [], rest, _ => by simp [parseStr]
  | c :: s, rest, h => by
    simp only [safeStr, List.all_cons, Bool.and_eq_true, decide_eq_true_eq] at h
    obtain ⟨⟨⟨hq, hb⟩, _⟩, hs⟩ := h
    have ih := parseStr_safe s rest (by simpa [safeStr, List.all_eq_true] using hs)
    simp [parseStr, hq, hb, ih]

theorem ppList_shape (ind : Nat) (x : JVal) (xs : List JVal) (h : 1 ≤ ind) :
    ∃ t, ppList ind x xs = ' ' :: t := by
  cases xs with
  | nil =>
    refine ⟨List.replicate (4 * ind - 1) ' ' ++ ppVal ind x, ?_⟩
    rw [ppList, pad_cons ind h, List.cons_append]
  | cons y ys =>
    refine ⟨List.replicate (4 * ind - 1) ' ' ++ (ppVal ind x ++ ',' :: '\n' :: ppList ind y ys), ?_⟩
    rw [ppList, pad_cons ind h]
    simp

theorem ppEntries_shape (ind : Nat) (k : Str) (v : JVal) (es : List (Str × JVal))
    (h : 1 ≤ ind) : ∃ t, ppEntries ind k v es = ' ' :: t := by
  cases es with
  | nil =>
    refine ⟨List.replicate (4 * ind - 1) ' ' ++ ('"' :: (k ++ '"' :: ':' :: ' ' :: ppVal ind v)), ?_⟩
    rw [ppEntries, pad_cons ind h, List.cons_append]
  | cons f fs =>
    obtain ⟨l, w⟩ := f
    refine ⟨List.replicate (4 * ind - 1) ' ' ++
      ('"' :: (k ++ '"' :: ':' :: ' ' :: ppVal ind v) ++ ',' :: '\n' :: ppEntries ind l w fs), ?_⟩
    rw [ppEntries, pad_cons ind h]
    simp

theorem nlOk_cons_nl (r : Str) (h : r.head? = some ' ') (hr : nlOk r = true) :
    nlOk ('\n' :: r) = true := by
  simp [nlOk, h, hr]

theorem digit_token (c : Char) (h : isDigit c = true) :
    isWs c = false ∧ c ≠ ']' ∧ c ≠ '\x7d' ∧ c ≠ ',' := by
  refine ⟨?_, ?_, ?_, ?_⟩
  · cases hw : isWs c
    · rfl
    · simp only [isWs, Bool.or_eq_true, decide_eq_true_eq] at hw
      rcases hw with ((rfl | rfl) | rfl) | rfl <;> exact absurd h (by decide)
  · rintro rfl; exact absurd h (by decide)
  · rintro rfl; exact absurd h (by decide)
  · rintro rfl; exact absurd h (by decide)

theorem ppNat_head (n : Nat) : ∃ c t, ppNat n = c :: t ∧ isDigit c = true := by
  cases hp : ppNat n with
  | nil => exact absurd hp (ppNat_ne_nil n)
  | cons c t =>
    exact ⟨c, t, rfl, ppNat_digits n c (by rw [hp]; simp)⟩

theorem ppVal_head (ind : Nat) (v : JVal) :
    ∃ c t, ppVal ind v = c :: t ∧ isWs c = false ∧ c ≠ ']' ∧ c ≠ '\x7d' ∧ c ≠ ',' := by
  cases v with
  | jnull => exact ⟨'n', _, by rw [ppVal], by decide, by decide, by decide, by decide⟩
  | jbool b =>
    cases b with
    | true => exact ⟨'t', _, by rw [ppVal], by decide, by decide, by decide, by decide⟩
    | false => exact ⟨'f', _, by rw [ppVal], by decide, by decide, by decide, by decide⟩
  | jnum n =>
    obtain ⟨c, t, hct, hc⟩ := ppNat_head n
    obtain ⟨h1, h2, h3, h4⟩ := digit_token c hc
    exact ⟨c, t, by rw [ppVal, hct], h1, h2, h3, h4⟩
  | jstr s => exact ⟨'"', _, by rw [ppVal], by decide, by decide, by decide, by decide⟩
  | jarr xs =>
    cases xs with
    | nil => exact ⟨'[', _, by rw [ppVal], by decide, by decide, by decide, by decide⟩
    | cons x t => exact ⟨'[', _, by rw [ppVal], by decide, by decide, by decide, by decide⟩
  | jobj es =>
    cases es with
    | nil => exact ⟨'\x7b', _, by rw [ppVal], by decide, by decide, by decide, by decide⟩
    | cons e t =>
      obtain ⟨k, w⟩ := e
      exact ⟨'\x7b', _, by rw [ppVal], by decide, by decide, by decide, by decide⟩

mutual

theorem nlOk_ppVal : ∀ (ind : Nat) (v : JVal), 1 ≤ ind → safe v = true →
    nlOk (ppVal ind v) = true
  | _, .jnull, _, _ => by rw [ppVal]; decide
  | _, .jbool true, _, _ => by rw [ppVal]; decide
  | _, .jbool false, _, _ => by rw [ppVal]; decide
  | _, .jnum n, _, _ => by
    rw [ppVal]
    exact nlOk_of_no_nl _ fun c hc => ne_nl_of_isDigit c (ppNat_digits n c hc)
  | _, .jstr s, _, hs => by
    rw [ppVal]
    refine nlOk_of_no_nl _ ?_
    intro c hc
    simp only [List.mem_cons, List.mem_append] at hc
    rcases hc with rfl | hc | hc2
    · decide
    · exact safeStr_no_nl s (by simpa [safe] using hs) c hc
    · rcases hc2 with rfl | h0
      · decide
      · simp at h0
  | _, .jarr [], _, _ => by rw [ppVal]; decide
  | ind, .jarr (x :: xs), hind, hs => by
    have hsafe : safe x = true ∧ safeList xs = true := by
      simpa [safe, safeList, Bool.and_eq_true] using hs
    obtain ⟨t, ht⟩ := ppList_shape (ind + 1) x xs (by omega)
    have h1 : nlOk (ppList (ind + 1) x xs) = true :=
      nlOk_ppList (ind + 1) x xs (by omega) hsafe.1 hsafe.2
    have h2 : nlOk ('\n' :: (pad ind ++ [']'])) = true := by
      refine nlOk_cons_nl _ ?_ ?_
      · rw [pad_cons ind hind]; rfl
      · exact nlOk_append _ _ (nlOk_pad ind) (by decide)
    rw [ppVal]
    refine nlOk_cons_of_ne '[' _ (by decide) ?_
    refine nlOk_cons_nl _ (by rw [ht]; rfl) ?_
    exact nlOk_append _ _ h1 h2
  | _, .jobj [], _, _ => by rw [ppVal]; decide
  | ind, .jobj ((k, v) :: es), hind, hs => by
    have hsafe : (safeStr k = true ∧ safe v = true) ∧ safeObj es = true := by
      simpa [safe, safeObj, Bool.and_eq_true] using hs
    obtain ⟨t, ht⟩ := ppEntries_shape (ind + 1) k v es (by omega)
    have h1 : nlOk (ppEntries (ind + 1) k v es) = true :=
      nlOk_ppEntries (ind + 1) k v es (by omega) hsafe.1.1 hsafe.1.2 hsafe.2
    have h2 : nlOk ('\n' :: (pad ind ++ ['\x7d'])) = true := by
      refine nlOk_cons_nl _ ?_ ?_
      · rw [pad_cons ind hind]; rfl
      · exact nlOk_append _ _ (nlOk_pad ind) (by decide)
    rw [ppVal]
    refine nlOk_cons_of_ne '\x7b' _ (by decide) ?_
    refine nlOk_cons_nl _ (by rw [ht]; rfl) ?_
    exact nlOk_append _ _ h1 h2
termination_by ind v h1 h2 => sizeOf v
decreasing_by all_goals simp_arith

theorem nlOk_ppList : ∀ (ind : Nat) (x : JVal) (xs : List JVal), 1 ≤ ind →
    safe x = true → safeList xs = true → nlOk (ppList ind x xs) = true
  | ind, x, [], hind, hx, _ => by
    rw [ppList]
    exact nlOk_append _ _ (nlOk_pad ind) (nlOk_ppVal ind x hind hx)
  | ind, x, y :: ys, hind, hx, hs => by
    have hsafe : safe y = true ∧ safeList ys = true := by
      simpa [safeList, Bool.and_eq_true] using hs
    obtain ⟨t, ht⟩ := ppList_shape ind y ys hind
    have hrec : nlOk (ppList ind y ys) = true := nlOk_ppList ind y ys hind hsafe.1 hsafe.2
    have hC : nlOk (',' :: '\n' :: ppList ind y ys) = true := by
      refine nlOk_cons_of_ne ',' _ (by decide) ?_
      exact nlOk_cons_nl _ (by rw [ht]; rfl) hrec
    rw [ppList]
    exact nlOk_append _ _ (nlOk_append _ _ (nlOk_pad ind) (nlOk_ppVal ind x hind hx)) hC
termination_by ind x xs h1 h2 h3 => 1 + sizeOf x + sizeOf xs
decreasing_by all_goals simp_arith

theorem nlOk_ppEntries : ∀ (ind : Nat) (k : Str) (v : JVal) (es : List (Str × JVal)),
    1 ≤ ind → safeStr k = true → safe v = true → safeObj es = true →
    nlOk (ppEntries ind k v es) = true
  | ind, k, v, [], hind, hk, hv, _ => by
    rw [ppEntries]
    refine nlOk_append _ _ (nlOk_pad ind) ?_
    refine nlOk_cons_of_ne '"' _ (by decide) ?_
    refine nlOk_append _ _ (nlOk_of_no_nl k (safeStr_no_nl k hk)) ?_
    refine nlOk_cons_of_ne '"' _ (by decide) ?_
    refine nlOk_cons_of_ne ':' _ (by decide) ?_
    refine nlOk_cons_of_ne ' ' _ (by decide) ?_
    exact nlOk_ppVal ind v hind hv
  | ind, k, v, (l, w) :: fs, hind, hk, hv, hs => by
    have hsafe : (safeStr l = true ∧ safe w = true) ∧ safeObj fs = true := by
      simpa [safeObj, Bool.and_eq_true] using hs
    obtain ⟨t, ht⟩ := ppEntries_shape ind l w fs hind
    have hrec := nlOk_ppEntries ind l w fs hind hsafe.1.1 hsafe.1.2 hsafe.2
    have hC : nlOk (',' :: '\n' :: ppEntries ind l w fs) = true := by
      refine nlOk_cons_of_ne ',' _ (by decide) ?_
      exact nlOk_cons_nl _ (by rw [ht]; rfl) hrec
    rw [ppEntries]
    refine nlOk_append _ _ ?_ hC
    refine nlOk_append _ _ (nlOk_pad ind) ?_
    refine nlOk_cons_of_ne '"' _ (by decide) ?_
    refine nlOk_append _ _ (nlOk_of_no_nl k (safeStr_no_nl k hk)) ?_
    refine nlOk_cons_of_ne '"' _ (by decide) ?_
    refine nlOk_cons_of_ne ':' _ (by decide) ?_
    refine nlOk_cons_of_ne ' ' _ (by decide) ?_
    exact nlOk_ppVal ind v hind hv
termination_by ind k v es h1 h2 h3 h4 => 1 + sizeOf v + sizeOf es
decreasing_by all_goals simp_arith

end

theorem cost_pos (v : JVal) : 1 ≤ cost v := by
  cases v with
  | jnull => simp [cost]
  | jbool b => simp [cost]
  | jnum n => simp [cost]
  | jstr s => simp [cost]
  | jarr xs => cases xs <;> simp [cost]
  | jobj es =>
    cases es with
    | nil => simp [cost]
    | cons e t => obtain ⟨k, w⟩ := e; simp [cost]

theorem parseVal_ws (fuel : Nat) (w cs : Str) (h : wsOnly w = true) :
    parseVal fuel (w ++ cs) = parseVal fuel cs := by
  cases fuel with
  | zero => rfl
  | succ n => rw [parseVal, parseVal, skipWs_append_ws w cs h]

theorem parseElems_ws (fuel : Nat) (w cs : Str) (h : wsOnly w = true) :
    parseElems fuel (w ++ cs) = parseElems fuel cs := by
  cases fuel with
  | zero => rfl
  | succ n => rw [parseElems, parseElems, parseVal_ws n w cs h]

theorem parseEntries_ws (fuel : Nat) (w cs : Str) (h : wsOnly w = true) :
    parseEntries fuel (w ++ cs) = parseEntries fuel cs := by
  cases fuel with
  | zero => rfl
  | succ n => rw [parseEntries, parseEntries, skipWs_append_ws w cs h]

theorem ppList_decomp (ind pind : Nat) (x : JVal) (xs : List JVal) (rest : Str) :
    ppList ind x xs ++ '\n' :: (pad pind ++ ']' :: rest) =
      pad ind ++ (ppVal ind x ++ elemsTail ind pind xs rest) := by
  cases xs with
  | nil => rw [ppList]; simp [elemsTail]
  | cons y ys => rw [ppList]; simp [elemsTail]

theorem ppEntries_decomp (ind pind : Nat) (k : Str) (v : JVal) (es : List (Str × JVal))
    (rest : Str) :
    ppEntries ind k v es ++ '\n' :: (pad pind ++ '\x7d' :: rest) =
      pad ind ++ ('"' :: (k ++ '"' :: ':' :: ' ' :: (ppVal ind v ++ entsTail ind pind es rest))) := by
  cases es with
  | nil => rw [ppEntries]; simp [entsTail]
  | cons f fs => obtain ⟨l, w⟩ := f; rw [ppEntries]; simp [entsTail]

theorem digit_token2 (c : Char) (h : isDigit c = true) :
    c ≠ '\x7b' ∧ c ≠ '[' ∧ c ≠ '"' := by
  refine ⟨?_, ?_, ?_⟩ <;> rintro rfl <;> exact absurd h (by decide)

theorem parseVal_succ_obj (m : Nat) (t : Str) :
    parseVal (m + 1) ('\x7b' :: t) = parseObjBody (parseEntries m) t := rfl

theorem parseVal_succ_arr (m : Nat) (t : Str) :
    parseVal (m + 1) ('[' :: t) = parseArrBody (parseElems m) t := rfl

theorem parseVal_succ_quote (m : Nat) (t : Str) :
    parseVal (m + 1) ('"' :: t) = (parseStr t).map fun p => (.jstr p.1, p.2) := rfl

theorem parseVal_succ_digit (m : Nat) (c : Char) (t : Str) (h : isDigit c = true) :
    parseVal (m + 1) (c :: t) =
      some (.jnum (digitsToNat 0 (takeDigits (c :: t)).1), (takeDigits (c :: t)).2) := by
  obtain ⟨hws, _, _, _⟩ := digit_token c h
  obtain ⟨h1, h2, h3⟩ := digit_token2 c h
  rw [parseVal, skipWs_cons_not_ws c t hws]
  show (if c = '\x7b' then parseObjBody (parseEntries m) t
    else if c = '[' then parseArrBody (parseElems m) t
    else if c = '"' then (parseStr t).map fun p => (JVal.jstr p.1, p.2)
    else if isDigit c then
      some (JVal.jnum (digitsToNat 0 (takeDigits (c :: t)).1), (takeDigits (c :: t)).2)
    else if c = 'n' then
      if t.take 3 = ['u', 'l', 'l'] then some (JVal.jnull, t.drop 3) else none
    else if c = 't' then
      if t.take 3 = ['r', 'u', 'e'] then some (JVal.jbool true, t.drop 3) else none
    else if c = 'f' then
      if t.take 4 = ['a', 'l', 's', 'e'] then some (JVal.jbool false, t.drop 4) else none
    else none) = _
  rw [if_neg h1, if_neg h2, if_neg h3, if_pos h]

theorem parseObjBody_step (pentr : Str → Option (List (Str × JVal) × Str)) (t : Str)
    (d : Char) (r1 : Str) (hsk : skipWs t = d :: r1) (hd : d ≠ '\x7d') :
    parseObjBody pentr t = (pentr (d :: r1)).map fun p => (.jobj p.1, p.2) := by
  rw [parseObjBody, hsk]
  show (if d = '\x7d' then some (JVal.jobj [], r1)
    else (pentr (d :: r1)).map fun p => (JVal.jobj p.1, p.2)) = _
  rw [if_neg hd]

theorem parseArrBody_step (pelems : Str → Option (List JVal × Str)) (t : Str)
    (d : Char) (r1 : Str) (hsk : skipWs t = d :: r1) (hd : d ≠ ']') :
    parseArrBody pelems t = (pelems (d :: r1)).map fun p => (.jarr p.1, p.2) := by
  rw [parseArrBody, hsk]
  show (if d = ']' then some (JVal.jarr [], r1)
    else (pelems (d :: r1)).map fun p => (JVal.jarr p.1, p.2)) = _
  rw [if_neg hd]

theorem parseElems_succ (m : Nat) (cs : Str) :
    parseElems (m + 1) cs =
      (parseVal m cs).bind fun p => parseElemsSep (parseElems m) p.1 p.2 := rfl

theorem parseElemsSep_comma (pe : Str → Option (List JVal × Str)) (v : JVal)
    (r r2 : Str) (hsk : skipWs r = ',' :: r2) :
    parseElemsSep pe v r = (pe r2).map fun q => (v :: q.1, q.2) := by
  rw [parseElemsSep, hsk]
  rfl

theorem parseElemsSep_close (pe : Str → Option (List JVal × Str)) (v : JVal)
    (r r2 : Str) (hsk : skipWs r = ']' :: r2) :
    parseElemsSep pe v r = some ([v], r2) := by
  rw [parseElemsSep, hsk]
  rfl

theorem parseEntries_succ_quote (m : Nat) (r : Str) :
    parseEntries (m + 1) ('"' :: r) =
      (parseStr r).bind fun kp => parseEntryColon (parseVal m) (parseEntries m) kp.1 kp.2 := rfl

theorem parseEntryColon_step (pv : Str → Option (JVal × Str))
    (pe : Str → Option (List (Str × JVal) × Str)) (kk : Str) (r1 r2 : Str)
    (hsk : skipWs r1 = ':' :: r2) :
    parseEntryColon pv pe kk r1 = (pv r2).bind fun vp => parseEntrySep pe kk vp.1 vp.2 := by
  rw [parseEntryColon, hsk]
  rfl

theorem parseEntrySep_comma (pe : Str → Option (List (Str × JVal) × Str)) (kk : Str)
    (v : JVal) (r r4 : Str) (hsk : skipWs r = ',' :: r4) :
    parseEntrySep pe kk v r = (pe r4).map fun q => ((kk, v) :: q.1, q.2) := by
  rw [parseEntrySep, hsk]
  rfl

theorem parseEntrySep_close (pe : Str → Option (List (Str × JVal) × Str)) (kk : Str)
    (v : JVal) (r r4 : Str) (hsk : skipWs r = '\x7d' :: r4) :
    parseEntrySep pe kk v r = some ([(kk, v)], r4) := by
  rw [parseEntrySep, hsk]
  rfl

theorem digitBoundary_elemsTail (ind pind : Nat) (xs : List JVal) (rest : Str) :
    digitBoundary (elemsTail ind pind xs rest) = true := by
  cases xs <;> rw [elemsTail] <;> rfl

theorem digitBoundary_entsTail (ind pind : Nat) (es : List (Str × JVal)) (rest : Str) :
    digitBoundary (entsTail ind pind es rest) = true := by
  cases es with
  | nil => rw [entsTail]; rfl
  | cons f fs => obtain ⟨l, w⟩ := f; rw [entsTail]; rfl

theorem skipWs_elemsTail_nil (ind pind : Nat) (rest : Str) :
    skipWs (elemsTail ind pind [] rest) = ']' :: rest := by
  rw [elemsTail, skipWs_cons_ws '\n' _ (by decide), skipWs_pad,
    skipWs_cons_not_ws ']' _ (by decide)]

theorem skipWs_entsTail_nil (ind pind : Nat) (rest : Str) :
    skipWs (entsTail ind pind [] rest) = '\x7d' :: rest := by
  rw [entsTail, skipWs_cons_ws '\n' _ (by decide), skipWs_pad,
    skipWs_cons_not_ws '\x7d' _ (by decide)]

theorem elemsCost_pos (x : JVal) (xs : List JVal) : 1 ≤ elemsCost x xs := by
  cases xs <;> (simp [elemsCost]; try omega)

theorem entsCost_pos (v : JVal) (es : List (Str × JVal)) : 1 ≤ entsCost v es := by
  cases es with
  | nil => simp [entsCost]
  | cons f fs => obtain ⟨l, w⟩ := f; simp [entsCost]; omega

mutual

theorem parse_ppVal : ∀ (v : JVal) (ind fuel : Nat) (rest : Str), safe v = true →
    cost v ≤ fuel → digitBoundary rest = true →
    parseVal fuel (ppVal ind v ++ rest) = some (v, rest)
  | .jnull, _, fuel, rest, _, hc, _ => by
    obtain ⟨m, rfl⟩ : ∃ m, fuel = m + 1 :=
      ⟨fuel - 1, by have := cost_pos JVal.jnull; omega⟩
    rw [ppVal]
    rfl
  | .jbool true, _, fuel, rest, _, hc, _ => by
    obtain ⟨m, rfl⟩ : ∃ m, fuel = m + 1 :=
      ⟨fuel - 1, by have := cost_pos (JVal.jbool true); omega⟩
    rw [ppVal]
    rfl
  | .jbool false, _, fuel, rest, _, hc, _ => by
    obtain ⟨m, rfl⟩ : ∃ m, fuel = m + 1 :=
      ⟨fuel - 1, by have := cost_pos (JVal.jbool false); omega⟩
    rw [ppVal]
    rfl
  | .jnum n, ind, fuel, rest, _, hc, hb => by
    obtain ⟨m, rfl⟩ : ∃ m, fuel = m + 1 :=
      ⟨fuel - 1, by have := cost_pos (JVal.jnum n); omega⟩
    obtain ⟨c, t, hct, hcd⟩ := ppNat_head n
    rw [ppVal, hct, List.cons_append, parseVal_succ_digit m c (t ++ rest) hcd,
      ← List.cons_append, ← hct, takeDigits_all (ppNat n) rest (ppNat_digits n) hb]
    show some (JVal.jnum (digitsToNat 0 (ppNat n)), rest) = some (JVal.jnum n, rest)
    rw [digitsToNat_ppNat n]
  | .jstr s, _, fuel, rest, hs, hc, _ => by
    obtain ⟨m, rfl⟩ : ∃ m, fuel = m + 1 :=
      ⟨fuel - 1, by have := cost_pos (JVal.jstr s); omega⟩
    rw [ppVal, show ('"' :: (s ++ ['"'])) ++ rest = '"' :: (s ++ '"' :: rest) by simp,
      parseVal_succ_quote m, parseStr_safe s rest (by simpa [safe] using hs)]
    rfl
  | .jarr [], _, fuel, rest, _, hc, _ => by
    obtain ⟨m, rfl⟩ : ∃ m, fuel = m + 1 :=
      ⟨fuel - 1, by have := cost_pos (JVal.jarr []); omega⟩
    rw [ppVal]
    rfl
  | .jarr (x :: xs), ind, fuel, rest, hs, hc, _ => by
    have hsafe : safe x = true ∧ safeList xs = true := by
      simpa [safe, safeList, Bool.and_eq_true] using hs
    have hcost : elemsCost x xs + 1 ≤ fuel := by
      simp only [cost] at hc; omega
    obtain ⟨m, rfl⟩ : ∃ m, fuel = m + 1 := ⟨fuel - 1, by omega⟩
    rw [ppVal]
    rw [show ('[' :: '\n' :: (ppList (ind + 1) x xs ++ '\n' :: (pad ind ++ [']']))) ++ rest
        = '[' :: ('\n' :: (ppList (ind + 1) x xs ++ '\n' :: (pad ind ++ ']' :: rest))) by simp]
    rw [parseVal_succ_arr m]
    obtain ⟨c, t, hct, hws, hrb, _, _⟩ := ppVal_head (ind + 1) x
    have hsk : skipWs ('\n' :: (ppList (ind + 1) x xs ++ '\n' :: (pad ind ++ ']' :: rest)))
        = c :: (t ++ elemsTail (ind + 1) ind xs rest) := by
      rw [skipWs_cons_ws '\n' _ (by decide), ppList_decomp (ind + 1) ind x xs rest,
        skipWs_pad, hct, List.cons_append, skipWs_cons_not_ws c _ hws]
    rw [parseArrBody_step (parseElems m) _ c (t ++ elemsTail (ind + 1) ind xs rest) hsk hrb]
    rw [show c :: (t ++ elemsTail (ind + 1) ind xs rest)
        = ppVal (ind + 1) x ++ elemsTail (ind + 1) ind xs rest by rw [hct]; simp]
    rw [parse_ppElems xs x (ind + 1) m ind rest hsafe.1 hsafe.2 (by omega)]
    rfl
  | .jobj [], _, fuel, rest, _, hc, _ => by
    obtain ⟨m, rfl⟩ : ∃ m, fuel = m + 1 :=
      ⟨fuel - 1, by have := cost_pos (JVal.jobj []); omega⟩
    rw [ppVal]
    rfl
  | .jobj ((k, v) :: es), ind, fuel, rest, hs, hc, _ => by
    have hsafe : (safeStr k = true ∧ safe v = true) ∧ safeObj es = true := by
      simpa [safe, safeObj, Bool.and_eq_true] using hs
    have hcost : entsCost v es + 1 ≤ fuel := by
      simp only [cost] at hc; omega
    obtain ⟨m, rfl⟩ : ∃ m, fuel = m + 1 := ⟨fuel - 1, by omega⟩
    rw [ppVal]
    rw [show ('\x7b' :: '\n' :: (ppEntries (ind + 1) k v es ++ '\n' :: (pad ind ++ ['\x7d']))) ++ rest
        = '\x7b' :: ('\n' :: (ppEntries (ind + 1) k v es ++ '\n' :: (pad ind ++ '\x7d' :: rest))) by simp]
    rw [parseVal_succ_obj m]
    have hsk : skipWs ('\n' :: (ppEntries (ind + 1) k v es ++ '\n' :: (pad ind ++ '\x7d' :: rest)))
        = '"' :: (k ++ '"' :: ':' :: ' ' :: (ppVal (ind + 1) v ++ entsTail (ind + 1) ind es rest)) := by
      rw [skipWs_cons_ws '\n' _ (by decide), ppEntries_decomp (ind + 1) ind k v es rest,
        skipWs_pad, skipWs_cons_not_ws '"' _ (by decide)]
    rw [parseObjBody_step (parseEntries m) _ '"' _ hsk (by decide)]
    rw [parse_ppEntries es k v (ind + 1) m ind rest hsafe.1.1 hsafe.1.2 hsafe.2 (by omega)]
    rfl
termination_by v ind fuel rest h1 h2 h3 => sizeOf v
decreasing_by all_goals simp_arith

theorem parse_ppElems : ∀ (xs : List JVal) (x : JVal) (ind fuel pind : Nat) (rest : Str),
    safe x = true → safeList xs = true → elemsCost x xs ≤ fuel →
    parseElems fuel (ppVal ind x ++ elemsTail ind pind xs rest) = some (x :: xs, rest)
  | [], x, ind, fuel, pind, rest, hx, _, hcost => by
    have hc1 : cost x + 1 ≤ fuel := by simp only [elemsCost] at hcost; omega
    obtain ⟨m, rfl⟩ : ∃ m, fuel = m + 1 := ⟨fuel - 1, by omega⟩
    rw [parseElems_succ m,
      parse_ppVal x ind m (elemsTail ind pind [] rest) hx (by omega)
        (digitBoundary_elemsTail ind pind [] rest)]
    show parseElemsSep (parseElems m) x (elemsTail ind pind [] rest) = some ([x], rest)
    exact parseElemsSep_close (parseElems m) x _ rest (skipWs_elemsTail_nil ind pind rest)
  | y :: ys, x, ind, fuel, pind, rest, hx, hys, hcost => by
    have hsafe : safe y = true ∧ safeList ys = true := by
      simpa [safeList, Bool.and_eq_true] using hys
    have hc1 : cost x + elemsCost y ys + 1 ≤ fuel := by
      simp only [elemsCost] at hcost; omega
    obtain ⟨m, rfl⟩ : ∃ m, fuel = m + 1 := ⟨fuel - 1, by omega⟩
    rw [parseElems_succ m,
      parse_ppVal x ind m (elemsTail ind pind (y :: ys) rest) hx
        (by have := elemsCost_pos y ys; omega)
        (digitBoundary_elemsTail ind pind (y :: ys) rest)]
    show parseElemsSep (parseElems m) x (elemsTail ind pind (y :: ys) rest)
      = some (x :: y :: ys, rest)
    have hsk : skipWs (elemsTail ind pind (y :: ys) rest)
        = ',' :: ('\n' :: (ppList ind y ys ++ '\n' :: (pad pind ++ ']' :: rest))) := by
      rw [elemsTail, skipWs_cons_not_ws ',' _ (by decide)]
    rw [parseElemsSep_comma (parseElems m) x _ _ hsk]
    rw [show ('\n' :: (ppList ind y ys ++ '\n' :: (pad pind ++ ']' :: rest)))
        = ['\n'] ++ (ppList ind y ys ++ '\n' :: (pad pind ++ ']' :: rest)) from rfl]
    rw [parseElems_ws m ['\n'] _ (by decide), ppList_decomp ind pind y ys rest,
      parseElems_ws m (pad ind) _ (wsOnly_pad ind),
      parse_ppElems ys y ind m pind rest hsafe.1 hsafe.2 (by have := cost_pos x; omega)]
    rfl
termination_by xs x ind fuel pind rest h1 h2 h3 => 1 + sizeOf x + sizeOf xs
decreasing_by all_goals simp_arith

theorem parse_ppEntries : ∀ (es : List (Str × JVal)) (k : Str) (v : JVal)
    (ind fuel pind : Nat) (rest : Str), safeStr k = true → safe v = true →
    safeObj es = true → entsCost v es ≤ fuel →
    parseEntries fuel
      ('"' :: (k ++ '"' :: ':' :: ' ' :: (ppVal ind v ++ entsTail ind pind es rest)))
      = some ((k, v) :: es, rest)
  | [], k, v, ind, fuel, pind, rest, hk, hv, _, hcost => by
    have hc1 : cost v + 1 ≤ fuel := by simp only [entsCost] at hcost; omega
    obtain ⟨m, rfl⟩ : ∃ m, fuel = m + 1 := ⟨fuel - 1, by omega⟩
    rw [parseEntries_succ_quote m, parseStr_safe k _ hk]
    show parseEntryColon (parseVal m) (parseEntries m) k
      (':' :: ' ' :: (ppVal ind v ++ entsTail ind pind [] rest)) = some ([(k, v)], rest)
    rw [parseEntryColon_step (parseVal m) (parseEntries m) k _ _
      (skipWs_cons_not_ws ':' _ (by decide))]
    rw [show (' ' :: (ppVal ind v ++ entsTail ind pind [] rest))
        = [' '] ++ (ppVal ind v ++ entsTail ind pind [] rest) from rfl]
    rw [parseVal_ws m [' '] _ (by decide),
      parse_ppVal v ind m _ hv (by omega) (digitBoundary_entsTail ind pind [] rest)]
    show parseEntrySep (parseEntries m) k v (entsTail ind pind [] rest) = some ([(k, v)], rest)
    exact parseEntrySep_close _ k v _ rest (skipWs_entsTail_nil ind pind rest)
  | (l, w) :: fs, k, v, ind, fuel, pind, rest, hk, hv, hes, hcost => by
    have hsafe : (safeStr l = true ∧ safe w = true) ∧ safeObj fs = true := by
      simpa [safeObj, Bool.and_eq_true] using hes
    have hc1 : cost v + entsCost w fs + 1 ≤ fuel := by
      simp only [entsCost] at hcost; omega
    obtain ⟨m, rfl⟩ : ∃ m, fuel = m + 1 := ⟨fuel - 1, by omega⟩
    rw [parseEntries_succ_quote m, parseStr_safe k _ hk]
    show parseEntryColon (parseVal m) (parseEntries m) k
      (':' :: ' ' :: (ppVal ind v ++ entsTail ind pind ((l, w) :: fs) rest))
      = some ((k, v) :: (l, w) :: fs, rest)
    rw [parseEntryColon_step (parseVal m) (parseEntries m) k _ _
      (skipWs_cons_not_ws ':' _ (by decide))]
    rw [show (' ' :: (ppVal ind v ++ entsTail ind pind ((l, w) :: fs) rest))
        = [' '] ++ (ppVal ind v ++ entsTail ind pind ((l, w) :: fs) rest) from rfl]
    rw [parseVal_ws m [' '] _ (by decide),
      parse_ppVal v ind m _ hv (by have := entsCost_pos w fs; omega)
        (digitBoundary_entsTail ind pind ((l, w) :: fs) rest)]
    show parseEntrySep (parseEntries m) k v (entsTail ind pind ((l, w) :: fs) rest)
      = some ((k, v) :: (l, w) :: fs, rest)
    have hsk2 : skipWs (entsTail ind pind ((l, w) :: fs) rest)
        = ',' :: ('\n' :: (ppEntries ind l w fs ++ '\n' :: (pad pind ++ '\x7d' :: rest))) := by
      rw [entsTail, skipWs_cons_not_ws ',' _ (by decide)]
    rw [parseEntrySep_comma (parseEntries m) k v _ _ hsk2]
    rw [show ('\n' :: (ppEntries ind l w fs ++ '\n' :: (pad pind ++ '\x7d' :: rest)))
        = ['\n'] ++ (ppEntries ind l w fs ++ '\n' :: (pad pind ++ '\x7d' :: rest)) from rfl]
    rw [parseEntries_ws m ['\n'] _ (by decide), ppEntries_decomp ind pind l w fs rest,
      parseEntries_ws m (pad ind) _ (wsOnly_pad ind),
      parse_ppEntries fs l w ind m pind rest hsafe.1.1 hsafe.1.2 hsafe.2
        (by have := cost_pos v; omega)]
    rfl
termination_by es k v ind fuel pind rest h1 h2 h3 h4 => 1 + sizeOf v + sizeOf es
decreasing_by all_goals simp_arith

end

theorem charAtPy_error (s : Str) (i : Int) (e : PyErr) (h : charAtPy s i = .error e) :
    e = .indexError := by
  unfold charAtPy at h
  split at h
  · exact absurd h (by simp)
  · split at h
    · exact absurd h (by simp)
    · exact (Except.error.injEq _ _).mp h.symm ▸ rfl

theorem charAtPy_ok_mem (s : Str) (i : Int) (c : Char) (h : charAtPy s i = .ok c) :
    c ∈ s := by
  unfold charAtPy at h
  split at h
  next hin =>
    simp only [Except.ok.injEq] at h
    subst h
    have hlt : i.toNat < s.length := by omega
    rw [List.getD_eq_getElem s ' ' hlt]
    exact List.getElem_mem hlt
  next =>
    split at h
    next hin =>
      simp only [Except.ok.injEq] at h
      subst h
      have hlt : ((s.length : Int) + i).toNat < s.length := by omega
      rw [List.getD_eq_getElem s ' ' hlt]
      exact List.getElem_mem hlt
    next => exact absurd h (by simp)

theorem commaScan_no_comma (s : Str) (hs : ',' ∉ s) :
    ∀ (fuel : Nat) (i : Int), commaScanLoop s fuel i = .error .indexError := by
  intro fuel
  induction fuel with
  | zero => intro i; rfl
  | succ n ih =>
    intro i
    rw [commaScanLoop]
    cases hch : charAtPy s i with
    | error e => rw [charAtPy_error s i e hch]
    | ok c =>
      have hc : ¬ c = ',' := fun he => hs (he ▸ charAtPy_ok_mem s i c hch)
      show (if c = ',' then Except.ok i else commaScanLoop s n (i - 1)) = _
      rw [if_neg hc]
      exact ih (i - 1)

theorem charAtPy_nat (s : Str) (j : Nat) (hj : j < s.length) :
    charAtPy s (j : Int) = .ok (s.getD j ' ') := by
  unfold charAtPy
  rw [if_pos (by constructor <;> omega)]
  simp

theorem commaScan_found_aux (X Y : Str) (hY : ∀ c ∈ Y, c ≠ ',') :
    ∀ (j : Nat) (fuel : Nat), j ≤ Y.length → j + 1 ≤ fuel →
    commaScanLoop (X ++ ',' :: Y) fuel ((X.length + j : Nat) : Int) = .ok (X.length : Int) := by
  intro j
  induction j with
  | zero =>
    intro fuel _ hfuel
    obtain ⟨m, rfl⟩ : ∃ m, fuel = m + 1 := ⟨fuel - 1, by omega⟩
    rw [commaScanLoop]
    have hlen : X.length + 0 < (X ++ ',' :: Y).length := by simp
    rw [charAtPy_nat _ _ hlen]
    have hget : (X ++ ',' :: Y).getD (X.length + 0) ' ' = ',' := by
      rw [List.getD_eq_getElem _ ' ' hlen, List.getElem_append_right (by omega)]
      simp
    rw [hget]
    show (if (',' : Char) = ',' then Except.ok ((X.length + 0 : Nat) : Int)
      else commaScanLoop (X ++ ',' :: Y) m (((X.length + 0 : Nat) : Int) - 1)) = _
    rw [if_pos rfl]
    simp
  | succ j ih =>
    intro fuel hj hfuel
    obtain ⟨m, rfl⟩ : ∃ m, fuel = m + 1 := ⟨fuel - 1, by omega⟩
    rw [commaScanLoop]
    have hlen : X.length + (j + 1) < (X ++ ',' :: Y).length := by simp; omega
    rw [charAtPy_nat _ _ hlen]
    have hget : (X ++ ',' :: Y).getD (X.length + (j + 1)) ' ' = Y.getD j ' ' := by
      rw [List.getD_eq_getElem _ ' ' hlen, List.getD_eq_getElem _ ' ' (by omega)]
      rw [List.getElem_append_right (by omega)]
      have hidx : X.length + (j + 1) - X.length = j + 1 := by omega
      simp only [hidx, List.getElem_cons_succ]
    have hmem : Y.getD j ' ' ∈ Y := by
      rw [List.getD_eq_getElem _ ' ' (by omega)]
      exact List.getElem_mem (by omega)
    rw [hget]
    show (if Y.getD j ' ' = ',' then Except.ok ((X.length + (j + 1) : Nat) : Int)
      else commaScanLoop (X ++ ',' :: Y) m (((X.length + (j + 1) : Nat) : Int) - 1)) = _
    rw [if_neg (hY _ hmem)]
    have harith : ((X.length + (j + 1) : Nat) : Int) - 1 = ((X.length + j : Nat) : Int) := by
      push_cast
      omega
    rw [harith]
    exact ih m (by omega) (by omega)

theorem lastCommaScan_found (X Y : Str) (hY : ∀ c ∈ Y, c ≠ ',') :
    lastCommaScan (X ++ ',' :: Y) = .ok (X.length : Int) := by
  unfold lastCommaScan
  have hlen : ((X ++ ',' :: Y).length : Int) - 1 = ((X.length + Y.length : Nat) : Int) := by
    simp
    omega
  rw [hlen]
  exact commaScan_found_aux X Y hY Y.length _ (le_refl _) (by simp; omega)

theorem lastCommaScan_none (s : Str) (hs : ',' ∉ s) :
    lastCommaScan s = .error .indexError := by
  unfold lastCommaScan
  exact commaScan_no_comma s hs _ _

theorem pySub_blocks : ∀ (os : List (List (Str × JVal))) (frag : Str),
    goodBlocks os = true → bridgeFree frag [] = true →
    pySub (blocksText os ++ frag) = (os.map fun es => ppTop es ++ [',', '\n']).flatten ++ frag
  | [], frag, _, hfrag => by
    have h := pySub_bridge frag [] hfrag
    have h0 : pySub ([] : Str) = [] := rfl
    rw [h0, List.append_nil] at h
    simpa [blocksText] using h
  | es :: rest, frag, hgood, hfrag => by
    simp only [goodBlocks, List.all_cons, Bool.and_eq_true, Bool.not_eq_true'] at hgood
    obtain ⟨⟨hne, hsafe⟩, hrest⟩ := hgood
    cases es with
    | nil => simp at hne
    | cons e es' =>
      obtain ⟨k, v⟩ := e
      have hsafe' : (safeStr k = true ∧ safe v = true) ∧ safeObj es' = true := by
        simpa [safeObj, Bool.and_eq_true] using hsafe
      have hB : nlOk (ppEntries 1 k v es') = true :=
        nlOk_ppEntries 1 k v es' (le_refl 1) hsafe'.1.1 hsafe'.1.2 hsafe'.2
      obtain ⟨t, ht⟩ := ppEntries_shape 1 k v es' (le_refl 1)
      have hP : nlOk ('\x7b' :: '\n' :: ppEntries 1 k v es') = true := by
        refine nlOk_cons_of_ne '\x7b' _ (by decide) ?_
        exact nlOk_cons_nl _ (by rw [ht]; rfl) hB
      have hBF : bridgeFree ('\x7b' :: '\n' :: ppEntries 1 k v es')
          ('\n' :: '\x7d' :: '\n' :: (blocksText rest ++ frag)) = true :=
        bridgeFree_of_nlOk _ _ hP (by simp)
      have hshape : blocksText (((k, v) :: es') :: rest) ++ frag
          = ('\x7b' :: '\n' :: ppEntries 1 k v es')
            ++ ('\n' :: '\x7d' :: '\n' :: (blocksText rest ++ frag)) := by
        simp only [blocksText, List.map_cons, List.flatten_cons, ppTop]
        rw [ppVal]
        simp [pad]
      rw [hshape, pySub_bridge _ _ hBF, pySub_hit '\n' _ (Or.inl rfl)]
      rw [pySub_blocks rest frag (show goodBlocks rest = true from hrest) hfrag]
      simp only [List.map_cons, List.flatten_cons, ppTop]
      rw [ppVal]
      simp [pad]

theorem flatten_blocks_eq_bodyText : ∀ (os : List (List (Str × JVal))), os ≠ [] →
    (os.map fun es => ppTop es ++ [',', '\n']).flatten = bodyText os ++ ',' :: '\n' :: []
  | [es], _ => by simp [bodyText]
  | es :: f :: rest, _ => by
    have ih := flatten_blocks_eq_bodyText (f :: rest) (by simp)
    have hb : bodyText (es :: f :: rest) = ppTop es ++ ',' :: '\n' :: bodyText (f :: rest) := by
      rw [bodyText]
      simp
    simp only [List.map_cons, List.flatten_cons] at ih ⊢
    rw [ih, hb]
    simp

theorem bodyText_cons_head : ∀ (os : List (List (Str × JVal))), os ≠ [] →
    ∃ t, bodyText os = '\x7b' :: t := by
  intro os hos
  have hpp : ∀ es : List (Str × JVal), ∃ u, ppTop es = '\x7b' :: u := by
    intro es
    cases es with
    | nil => exact ⟨['\x7d'], by rw [ppTop, ppVal]⟩
    | cons e es' =>
      obtain ⟨k, v⟩ := e
      exact ⟨'\n' :: (ppEntries 1 k v es' ++ '\n' :: (pad 0 ++ ['\x7d'])),
        by rw [ppTop, ppVal]⟩
  match os with
  | [es] =>
    obtain ⟨u, hu⟩ := hpp es
    exact ⟨u, by rw [bodyText, hu]⟩
  | es :: f :: rest =>
    obtain ⟨u, hu⟩ := hpp es
    have hb : bodyText (es :: f :: rest) = ppTop es ++ ',' :: '\n' :: bodyText (f :: rest) := by
      rw [bodyText]
      simp
    exact ⟨u ++ ',' :: '\n' :: bodyText (f :: rest), by rw [hb, hu]; rfl⟩

mutual

theorem cost_le_ppVal : ∀ (v : JVal) (ind : Nat), cost v ≤ 2 * (ppVal ind v).length
  | .jnull, ind => by rw [ppVal]; simp [cost]
  | .jbool true, ind => by rw [ppVal]; simp [cost]
  | .jbool false, ind => by rw [ppVal]; simp [cost]
  | .jnum n, ind => by
    rw [ppVal]
    have hlen : 1 ≤ (ppNat n).length := by
      cases hp : ppNat n with
      | nil => exact absurd hp (ppNat_ne_nil n)
      | cons c t => simp
    simp only [cost]
    omega
  | .jstr s, ind => by
    rw [ppVal]
    simp only [cost, List.length_cons, List.length_append]
    omega
  | .jarr [], ind => by rw [ppVal]; simp [cost]
  | .jarr (x :: xs), ind => by
    rw [ppVal]
    have h := elemsCost_le_ppList xs x (ind + 1)
    simp only [cost, List.length_cons, List.length_append]
    omega
  | .jobj [], ind => by rw [ppVal]; simp [cost]
  | .jobj ((k, v) :: es), ind => by
    rw [ppVal]
    have h := entsCost_le_ppEntries es k v (ind + 1)
    simp only [cost, List.length_cons, List.length_append]
    omega
termination_by v ind => sizeOf v
decreasing_by all_goals simp_arith

theorem elemsCost_le_ppList : ∀ (xs : List JVal) (x : JVal) (ind : Nat),
    elemsCost x xs ≤ 2 * (ppList ind x xs).length + 1
  | [], x, ind => by
    rw [ppList]
    have h := cost_le_ppVal x ind
    simp only [elemsCost, List.length_append]
    omega
  | y :: ys, x, ind => by
    rw [ppList]
    have h1 := cost_le_ppVal x ind
    have h2 := elemsCost_le_ppList ys y ind
    simp only [elemsCost, List.length_append, List.length_cons]
    omega
termination_by xs x ind => 1 + sizeOf x + sizeOf xs
decreasing_by all_goals simp_arith

theorem entsCost_le_ppEntries : ∀ (es : List (Str × JVal)) (k : Str) (v : JVal) (ind : Nat),
    entsCost v es ≤ 2 * (ppEntries ind k v es).length + 1
  | [], k, v, ind => by
    rw [ppEntries]
    have h := cost_le_ppVal v ind
    simp only [entsCost, List.length_append, List.length_cons]
    omega
  | (l, w) :: fs, k, v, ind => by
    rw [ppEntries]
    have h1 := cost_le_ppVal v ind
    have h2 := entsCost_le_ppEntries fs l w ind
    simp only [entsCost, List.length_append, List.length_cons]
    omega
termination_by es k v ind => 1 + sizeOf v + sizeOf es
decreasing_by all_goals simp_arith

end

theorem chainCost_le : ∀ (os : List (List (Str × JVal))), os ≠ [] →
    chainCost os ≤ 2 * (bodyText os).length + 2
  | [es], _ => by
    have h := cost_le_ppVal (.jobj es) 0
    simp only [chainCost, bodyText, ppTop]
    omega
  | es :: f :: rest, _ => by
    have h1 := cost_le_ppVal (.jobj es) 0
    have h2 := chainCost_le (f :: rest) (by simp)
    simp only [chainCost, bodyText, ppTop, List.length_append, List.length_cons] at h2 ⊢
    omega

theorem parse_bodyText : ∀ (os : List (List (Str × JVal))) (fuel : Nat) (rest : Str),
    os ≠ [] → goodBlocks os = true → chainCost os ≤ fuel →
    parseElems fuel (bodyText os ++ ']' :: rest) = some (os.map JVal.jobj, rest)
  | [es], fuel, rest, _, hgood, hcost => by
    have hsafe : safe (.jobj es) = true := by
      simp only [goodBlocks, List.all_cons, Bool.and_eq_true] at hgood
      simpa [safe] using hgood.1.2
    have hc : cost (.jobj es) + 2 ≤ fuel := by
      simp only [chainCost] at hcost
      omega
    obtain ⟨m, rfl⟩ : ∃ m, fuel = m + 1 := ⟨fuel - 1, by omega⟩
    rw [bodyText, parseElems_succ m]
    rw [show ppTop es ++ ']' :: rest = ppVal 0 (.jobj es) ++ ']' :: rest from rfl]
    rw [parse_ppVal (.jobj es) 0 m (']' :: rest) hsafe (by omega) (by rfl)]
    show parseElemsSep (parseElems m) (.jobj es) (']' :: rest) = some ([.jobj es], rest)
    exact parseElemsSep_close _ _ _ rest (skipWs_cons_not_ws ']' _ (by decide))
  | es :: f :: os', fuel, rest, _, hgood, hcost => by
    have hgood' : goodBlocks (f :: os') = true := by
      simp only [goodBlocks, List.all_cons, Bool.and_eq_true] at hgood ⊢
      exact hgood.2
    have hsafe : safe (.jobj es) = true := by
      simp only [goodBlocks, List.all_cons, Bool.and_eq_true] at hgood
      simpa [safe] using hgood.1.2
    have hc : cost (.jobj es) + chainCost (f :: os') + 1 ≤ fuel := by
      simp only [chainCost] at hcost ⊢
      omega
    have hcpos : 1 ≤ chainCost (f :: os') := by
      have := cost_pos (JVal.jobj f)
      simp only [chainCost]
      omega
    obtain ⟨m, rfl⟩ : ∃ m, fuel = m + 1 := ⟨fuel - 1, by omega⟩
    have hb : bodyText (es :: f :: os') = ppTop es ++ ',' :: '\n' :: bodyText (f :: os') := by
      rw [bodyText]
      simp
    rw [show bodyText (es :: f :: os') ++ ']' :: rest
        = ppVal 0 (.jobj es) ++ ',' :: '\n' :: (bodyText (f :: os') ++ ']' :: rest) by
      rw [hb]; simp [ppTop]]
    rw [parseElems_succ m, parse_ppVal (.jobj es) 0 m _ hsafe (by omega) (by rfl)]
    show parseElemsSep (parseElems m) (.jobj es)
      (',' :: '\n' :: (bodyText (f :: os') ++ ']' :: rest)) = _
    rw [parseElemsSep_comma _ _ _ _ (skipWs_cons_not_ws ',' _ (by decide))]
    rw [show ('\n' :: (bodyText (f :: os') ++ ']' :: rest))
        = ['\n'] ++ (bodyText (f :: os') ++ ']' :: rest) from rfl]
    rw [parseElems_ws m ['\n'] _ (by decide)]
    rw [parse_bodyText (f :: os') m rest (by simp) hgood' (by omega)]
    rfl

theorem parseVal_wrap (m : Nat) (os : List (List (Str × JVal))) (hos : os ≠ [])
    (hgood : goodBlocks os = true) (hm : chainCost os ≤ m) :
    parseVal (m + 3) ('\x7b' :: (' ' :: '"' :: ("contents".data ++ '"' :: ':' :: ' ' :: '[' ::
        (bodyText os ++ ']' :: '\x7d' :: []))))
      = some (.jobj [("contents".data, .jarr (os.map JVal.jobj))], []) := by
  rw [parseVal_succ_obj (m + 2)]
  rw [parseObjBody_step (parseEntries (m + 2)) _ '"'
    ("contents".data ++ '"' :: ':' :: ' ' :: '[' :: (bodyText os ++ ']' :: '\x7d' :: []))
    (by rw [skipWs_cons_ws ' ' _ (by decide), skipWs_cons_not_ws '"' _ (by decide)])
    (by decide)]
  rw [parseEntries_succ_quote (m + 1)]
  rw [parseStr_safe "contents".data _ (by decide)]
  show (parseEntryColon (parseVal (m + 1)) (parseEntries (m + 1)) "contents".data
    (':' :: ' ' :: '[' :: (bodyText os ++ ']' :: '\x7d' :: []))).map
      (fun p => (JVal.jobj p.1, p.2)) = _
  rw [parseEntryColon_step (parseVal (m + 1)) (parseEntries (m + 1)) _ _ _
    (skipWs_cons_not_ws ':' _ (by decide))]
  rw [show (' ' :: '[' :: (bodyText os ++ ']' :: '\x7d' :: []))
      = [' '] ++ ('[' :: (bodyText os ++ ']' :: '\x7d' :: [])) from rfl]
  rw [parseVal_ws (m + 1) [' '] _ (by decide)]
  rw [parseVal_succ_arr m]
  obtain ⟨t, ht⟩ := bodyText_cons_head os hos
  rw [parseArrBody_step (parseElems m) _ '\x7b' (t ++ ']' :: '\x7d' :: [])
    (by rw [ht, List.cons_append, skipWs_cons_not_ws '\x7b' _ (by decide)])
    (by decide)]
  rw [show '\x7b' :: (t ++ ']' :: '\x7d' :: []) = bodyText os ++ ']' :: '\x7d' :: [] by
    rw [ht]; rfl]
  rw [parse_bodyText os m ('\x7d' :: []) hos hgood hm]
  show (parseEntrySep (parseEntries (m + 1)) "contents".data
    (JVal.jarr (os.map JVal.jobj)) ('\x7d' :: [])).map (fun p => (JVal.jobj p.1, p.2)) = _
  rw [parseEntrySep_close _ _ _ _ [] (skipWs_cons_not_ws '\x7d' _ (by decide))]
  rfl

theorem json_loads_wrap (os : List (List (Str × JVal))) (hos : os ≠ [])
    (hgood : goodBlocks os = true) :
    json_loads (wrapL ++ bodyText os ++ wrapR)
      = some (.jobj [("contents".data, .jarr (os.map JVal.jobj))]) := by
  have hshape : wrapL ++ bodyText os ++ wrapR
      = '\x7b' :: (' ' :: '"' :: ("contents".data ++ '"' :: ':' :: ' ' :: '[' ::
        (bodyText os ++ ']' :: '\x7d' :: []))) := by
    simp [wrapL, wrapR]
  have hlen : (wrapL ++ bodyText os ++ wrapR).length = (bodyText os).length + 17 := by
    have h8 : ("contents".data).length = 8 := rfl
    simp [wrapL, wrapR]
  have hchain : chainCost os ≤ 2 * (bodyText os).length + 35 := by
    have h1 := chainCost_le os hos
    omega
  have hF : 2 * ((bodyText os).length + 17) + 4
      = (2 * (bodyText os).length + 35) + 3 := by omega
  unfold json_loads
  rw [hlen, hF, hshape]
  rw [parseVal_wrap (2 * (bodyText os).length + 35) os hos hgood hchain]
  rfl

theorem repair_blocks_frag (os : List (List (Str × JVal))) (frag : Str)
    (hos : os ≠ []) (hgood : goodBlocks os = true)
    (hfrag : bridgeFree frag [] = true) (hcomma : ',' ∉ frag) :
    repair_json (blocksText os ++ frag)
      = .ok (.jobj [("contents".data, .jarr (os.map JVal.jobj))]) := by
  unfold repair_json
  rw [pySub_blocks os frag hgood hfrag, flatten_blocks_eq_bodyText os hos]
  rw [show (bodyText os ++ ',' :: '\n' :: []) ++ frag
      = bodyText os ++ ',' :: ('\n' :: frag) by simp]
  have hY : ∀ c ∈ '\n' :: frag, c ≠ ',' := by
    intro c hc
    rcases List.mem_cons.mp hc with rfl | hc
    · decide
    · exact fun he => hcomma (he ▸ hc)
  have htake : List.take ((bodyText os).length : Int).toNat
      (bodyText os ++ ',' :: ('\n' :: frag)) = bodyText os := by
    rw [Int.toNat_natCast]
    exact List.take_left _ _
  show (match lastCommaScan (bodyText os ++ ',' :: ('\n' :: frag)) with
    | Except.error e => Except.error e
    | Except.ok commaPos =>
      match json_loads (wrapL ++ List.take commaPos.toNat
          (bodyText os ++ ',' :: ('\n' :: frag)) ++ wrapR) with
      | some v => Except.ok v
      | none => Except.error PyErr.jsonError) = _
  rw [lastCommaScan_found (bodyText os) ('\n' :: frag) hY]
  show (match json_loads (wrapL ++ List.take ((bodyText os).length : Int).toNat
      (bodyText os ++ ',' :: ('\n' :: frag)) ++ wrapR) with
    | some v => Except.ok v
    | none => Except.error PyErr.jsonError) = _
  rw [htake, json_loads_wrap os hos hgood]

theorem bind_ok_py {α β : Type} (a : α) (f : α → Except PyErr β) :
    (Except.ok a >>= f) = f a := rfl

theorem bind_err_py {α β : Type} (e : PyErr) (f : α → Except PyErr β) :
    (Except.error e >>= f) = Except.error e := rfl

theorem bind_ok_inv {α β : Type} (x : Except PyErr α) (f : α → Except PyErr β) (b : β)
    (h : (x >>= f) = .ok b) : ∃ a, x = .ok a ∧ f a = .ok b := by
  cases x with
  | error e => rw [bind_err_py] at h; exact Except.noConfusion h
  | ok a => exact ⟨a, rfl, h⟩

theorem moviePass_err (r : JVal) (e : PyErr)
    (h : pyGet r "media_type".data = .error e) :
    moviePass true r = .error e := by
  simp only [moviePass, h]

theorem moviePass_movie (r mt : JVal) (h : pyGet r "media_type".data = .ok mt) :
    moviePass true r = .ok (decide (mt = JVal.jstr "MOVIE".data)) := by
  simp only [moviePass, h]

theorem consume_via_pass {σ : Type} (fmo : Bool) (tk : Str)
    (impl : σ → JVal → JVal → Except PyErr σ) (st : TTState σ) (r m : JVal) :
    consume fmo tk impl st r m =
      moviePass fmo r >>= fun pass1 =>
        if pass1 then
          pyGet r tk >>= fun t =>
            if t ∈ st.titles then pure st
            else impl st.data r m >>= fun d => pure ⟨t :: st.titles, d⟩
        else pure st := by
  cases fmo with
  | false => rfl
  | true =>
    unfold consume
    cases hmt : pyGet r "media_type".data with
    | error e => rw [moviePass_err r e hmt]; rfl
    | ok mt => rw [moviePass_movie r mt hmt]; rfl

theorem consume_pass_fail {σ : Type} (fmo : Bool) (tk : Str)
    (impl : σ → JVal → JVal → Except PyErr σ) (st : TTState σ) (r m : JVal) (e : PyErr)
    (hp : moviePass fmo r = .error e) :
    consume fmo tk impl st r m = .error e := by
  rw [consume_via_pass, hp, bind_err_py]

theorem consume_pass_false {σ : Type} (fmo : Bool) (tk : Str)
    (impl : σ → JVal → JVal → Except PyErr σ) (st : TTState σ) (r m : JVal)
    (hp : moviePass fmo r = .ok false) :
    consume fmo tk impl st r m = .ok st := by
  rw [consume_via_pass, hp, bind_ok_py]
  rfl

theorem consume_dup {σ : Type} (fmo : Bool) (tk : Str)
    (impl : σ → JVal → JVal → Except PyErr σ) (st : TTState σ) (r m : JVal) (t : JVal)
    (hp : moviePass fmo r = .ok true)
    (ht : pyGet r tk = .ok t) (hmem : t ∈ st.titles) :
    consume fmo tk impl st r m = .ok st := by
  rw [consume_via_pass, hp, bind_ok_py, ht, bind_ok_py, if_pos hmem]
  rfl

theorem consume_new {σ : Type} (fmo : Bool) (tk : Str)
    (impl : σ → JVal → JVal → Except PyErr σ) (st : TTState σ) (r m : JVal) (t : JVal)
    (d : σ) (hp : moviePass fmo r = .ok true)
    (ht : pyGet r tk = .ok t) (hmem : t ∉ st.titles)
    (hd : impl st.data r m = .ok d) :
    consume fmo tk impl st r m = .ok ⟨t :: st.titles, d⟩ := by
  rw [consume_via_pass, hp, bind_ok_py, ht, bind_ok_py, if_neg hmem, hd, bind_ok_py]
  rfl

theorem moviePass_true_inv (r : JVal) (b : Bool) (h : moviePass true r = .ok b) :
    ∃ mt, pyGet r "media_type".data = .ok mt ∧
      decide (mt = JVal.jstr "MOVIE".data) = b := by
  cases hmt : pyGet r "media_type".data with
  | error e => rw [moviePass_err r e hmt] at h; exact Except.noConfusion h
  | ok mt => rw [moviePass_movie r mt hmt] at h; exact ⟨mt, rfl, Except.ok.inj h⟩

theorem consume_ok_inv {σ : Type} (fmo : Bool) (tk : Str)
    (impl : σ → JVal → JVal → Except PyErr σ) (st st1 : TTState σ) (r m : JVal)
    (h : consume fmo tk impl st r m = .ok st1) :
    (moviePass fmo r = .ok false ∧ st1 = st) ∨
    (moviePass fmo r = .ok true ∧ ∃ t, pyGet r tk = .ok t ∧
      ((t ∈ st.titles ∧ st1 = st) ∨
       (t ∉ st.titles ∧ ∃ d, impl st.data r m = .ok d ∧ st1 = ⟨t :: st.titles, d⟩))) := by
  rw [consume_via_pass] at h
  cases hp : moviePass fmo r with
  | error e =>
    rw [hp, bind_err_py] at h
    exact Except.noConfusion h
  | ok b =>
    rw [hp, bind_ok_py] at h
    cases b with
    | false =>
      refine Or.inl ⟨rfl, ?_⟩
      have h' : (Except.ok st : Except PyErr (TTState σ)) = .ok st1 := h
      exact (Except.ok.inj h').symm
    | true =>
      refine Or.inr ⟨rfl, ?_⟩
      cases ht : pyGet r tk with
      | error e =>
        rw [ht] at h
        have h' : (Except.error e : Except PyErr (TTState σ)) = .ok st1 := h
        exact Except.noConfusion h'
      | ok t =>
        rw [ht] at h
        have h' : (if t ∈ st.titles then (pure st : Except PyErr (TTState σ))
            else impl st.data r m >>= fun d => pure ⟨t :: st.titles, d⟩) = .ok st1 := h
        by_cases hmem : t ∈ st.titles
        · rw [if_pos hmem] at h'
          exact ⟨t, rfl, Or.inl ⟨hmem, (Except.ok.inj h').symm⟩⟩
        · rw [if_neg hmem] at h'
          cases hd : impl st.data r m with
          | error e => rw [hd, bind_err_py] at h'; exact Except.noConfusion h'
          | ok d =>
            rw [hd, bind_ok_py] at h'
            exact ⟨t, rfl, Or.inr ⟨hmem, d, rfl, (Except.ok.inj h').symm⟩⟩

theorem acceptedCount_cons_true (fmo : Bool) (tk : Str) (inc : JVal → Nat)
    (titles : List JVal) (r m : JVal) (rest : List (JVal × JVal)) (t : JVal)
    (hp : moviePass fmo r = .ok true) (ht : pyGet r tk = .ok t) :
    acceptedCount fmo tk inc titles ((r, m) :: rest) =
      if t ∈ titles then acceptedCount fmo tk inc titles rest
      else inc r + acceptedCount fmo tk inc (t :: titles) rest := by
  cases fmo with
  | false =>
    show (match pyGet r tk with
      | .ok t => if t ∈ titles then acceptedCount false tk inc titles rest
                 else inc r + acceptedCount false tk inc (t :: titles) rest
      | .error _ => 0) = _
    rw [ht]
  | true =>
    obtain ⟨mt, hmt, hdec⟩ := moviePass_true_inv r true hp
    simp only [acceptedCount, hmt, hdec, ht, if_true]

theorem acceptedCount_cons_false (fmo : Bool) (tk : Str) (inc : JVal → Nat)
    (titles : List JVal) (r m : JVal) (rest : List (JVal × JVal))
    (hp : moviePass fmo r = .ok false) :
    acceptedCount fmo tk inc titles ((r, m) :: rest)
      = acceptedCount fmo tk inc titles rest := by
  cases fmo with
  | false =>
    have h' : (Except.ok true : Except PyErr Bool) = .ok false := hp
    exact absurd (Except.ok.inj h') (by decide)
  | true =>
    obtain ⟨mt, hmt, hdec⟩ := moviePass_true_inv r false hp
    simp [acceptedCount, hmt, hdec]

theorem consumeMany_count {σ : Type} (fmo : Bool) (tk : Str)
    (impl : σ → JVal → JVal → Except PyErr σ)
    (rows : σ → Nat) (bal : σ → Prop) (inc : JVal → Nat)
    (himpl : ∀ d r m d', impl d r m = .ok d' →
      rows d' = rows d + inc r ∧ (bal d → bal d')) :
    ∀ (l : List (JVal × JVal)) (st st' : TTState σ),
      consumeMany (consume fmo tk impl) st l = .ok st' →
      rows st'.data = rows st.data + acceptedCount fmo tk inc st.titles l ∧
        (bal st.data → bal st'.data)
  | [], st, st', h => by
    have h' : (Except.ok st : Except PyErr (TTState σ)) = .ok st' := h
    cases Except.ok.inj h'
    exact ⟨(Nat.add_zero _).symm, fun hb => hb⟩
  | (r, m) :: rest, st, st', h => by
    rw [consumeMany] at h
    cases hstep : consume fmo tk impl st r m with
    | error e => rw [hstep, bind_err_py] at h; exact Except.noConfusion h
    | ok st1 =>
      rw [hstep, bind_ok_py] at h
      have ih := consumeMany_count fmo tk impl rows bal inc himpl rest st1 st' h
      rcases consume_ok_inv fmo tk impl st st1 r m hstep with
        ⟨hp, hst⟩ | ⟨hp, t, ht, ⟨hmem, hst⟩ | ⟨hmem, d, hd, hst⟩⟩
      · rw [hst] at ih
        rw [acceptedCount_cons_false fmo tk inc st.titles r m rest hp]
        exact ih
      · rw [hst] at ih
        rw [acceptedCount_cons_true fmo tk inc st.titles r m rest t hp ht, if_pos hmem]
        exact ih
      · rw [hst] at ih
        dsimp only at ih
        rw [acceptedCount_cons_true fmo tk inc st.titles r m rest t hp ht, if_neg hmem]
        have hrow := (himpl st.data r m d hd).1
        refine ⟨?_, fun hb => ih.2 ((himpl st.data r m d hd).2 hb)⟩
        rw [ih.1, hrow]
        omega

theorem task1_impl_rows : ∀ (d : T1Data) (r m : JVal) (d' : T1Data),
    task1_consume_impl d r m = .ok d' →
    rowsT1 d' = rowsT1 d + 1 ∧ (balancedT1 d → balancedT1 d') := by
  intro d r m d' h
  unfold task1_consume_impl at h
  obtain ⟨rv, h1, h⟩ := bind_ok_inv _ _ _ h
  obtain ⟨items, h2, h⟩ := bind_ok_inv _ _ _ h
  obtain ⟨contents, h3, h⟩ := bind_ok_inv _ _ _ h
  obtain ⟨rat, h4, h⟩ := bind_ok_inv _ _ _ h
  obtain ⟨tt, h5, h⟩ := bind_ok_inv _ _ _ h
  cases Except.ok.inj h
  constructor
  · simp [rowsT1]
  · intro hb
    simp only [balancedT1, rowsT1] at hb ⊢
    simp only [List.length_append, List.length_cons, List.length_nil]
    omega

theorem task2_impl_rows : ∀ (d : T2Data) (r m : JVal) (d' : T2Data),
    task2_consume_impl d r m = .ok d' →
    rowsT2 d' = rowsT2 d + 1 ∧ (balancedT2 d → balancedT2 d') := by
  intro d r m d' h
  unfold task2_consume_impl at h
  obtain ⟨tt, h1, h⟩ := bind_ok_inv _ _ _ h
  obtain ⟨pop, h2, h⟩ := bind_ok_inv _ _ _ h
  obtain ⟨castv, h3, h⟩ := bind_ok_inv _ _ _ h
  obtain ⟨castL, h4, h⟩ := bind_ok_inv _ _ _ h
  obtain ⟨acts, h5, h⟩ := bind_ok_inv _ _ _ h
  obtain ⟨crewv, h6, h⟩ := bind_ok_inv _ _ _ h
  obtain ⟨crewL, h7, h⟩ := bind_ok_inv _ _ _ h
  obtain ⟨dirs, h8, h⟩ := bind_ok_inv _ _ _ h
  obtain ⟨bud, h9, h⟩ := bind_ok_inv _ _ _ h
  obtain ⟨run, h10, h⟩ := bind_ok_inv _ _ _ h
  cases Except.ok.inj h
  constructor
  · simp [rowsT2]
  · intro hb
    simp only [balancedT2, rowsT2] at hb ⊢
    simp only [List.length_append, List.length_cons, List.length_nil]
    omega

theorem task3_impl_rows : ∀ (d : T3Data) (r m : JVal) (d' : T3Data),
    task3_consume_impl d r m = .ok d' →
    rowsT3 d' = rowsT3 d + 1 ∧ (balancedT3 d → balancedT3 d') := by
  intro d r m d' h
  unfold task3_consume_impl at h
  obtain ⟨tt, h1, h⟩ := bind_ok_inv _ _ _ h
  obtain ⟨reg, h2, h⟩ := bind_ok_inv _ _ _ h
  obtain ⟨pop, h3, h⟩ := bind_ok_inv _ _ _ h
  obtain ⟨mt, h4, h⟩ := bind_ok_inv _ _ _ h
  obtain ⟨gv, h5, h⟩ := bind_ok_inv _ _ _ h
  obtain ⟨gs, h6, h⟩ := bind_ok_inv _ _ _ h
  cases Except.ok.inj h
  constructor
  · simp [rowsT3]
  · intro hb
    simp only [balancedT3, rowsT3] at hb ⊢
    simp only [List.length_append, List.length_cons, List.length_nil]
    omega

theorem task5_impl_rows : ∀ (d : T5Data) (r m : JVal) (d' : T5Data),
    task5_consume_impl d r m = .ok d' →
    rowsT5 d' = rowsT5 d + 1 ∧ (balancedT5 d → balancedT5 d') := by
  intro d r m d' h
  unfold task5_consume_impl at h
  obtain ⟨mt, h1, h⟩ := bind_ok_inv _ _ _ h
  obtain ⟨pcv, h2, h⟩ := bind_ok_inv _ _ _ h
  obtain ⟨pcL, h3, h⟩ := bind_ok_inv _ _ _ h
  obtain ⟨pcs, h4, h⟩ := bind_ok_inv _ _ _ h
  obtain ⟨pov, h5, h⟩ := bind_ok_inv _ _ _ h
  obtain ⟨poL, h6, h⟩ := bind_ok_inv _ _ _ h
  obtain ⟨pos, h7, h⟩ := bind_ok_inv _ _ _ h
  obtain ⟨pop, h8, h⟩ := bind_ok_inv _ _ _ h
  obtain ⟨rat, h9, h⟩ := bind_ok_inv _ _ _ h
  obtain ⟨tt, h10, h⟩ := bind_ok_inv _ _ _ h
  cases Except.ok.inj h
  constructor
  · simp [rowsT5]
  · intro hb
    simp only [balancedT5, rowsT5] at hb ⊢
    simp only [List.length_append, List.length_cons, List.length_nil]
    omega

theorem task4_impl_rows : ∀ (d : T4Data) (r m : JVal) (d' : T4Data),
    task4_consume_impl d r m = .ok d' →
    rowsT4 d' = rowsT4 d + (if seasonOk r then 1 else 0) ∧
      (balancedT4 d → balancedT4 d') := by
  intro d r m d' h
  unfold task4_consume_impl at h
  obtain ⟨s, hs, h⟩ := bind_ok_inv _ _ _ h
  split at h
  · -- seasons is null: no row, store untouched
    have hso : seasonOk r = false := by unfold seasonOk; rw [hs]
    cases Except.ok.inj h
    rw [hso]
    exact ⟨rfl, fun hb => hb⟩
  · -- seasons is a number: guarded on n ≥ 1
    next n =>
    by_cases hn : n ≥ 1
    · have hso : seasonOk r = true := by
        unfold seasonOk; rw [hs]; exact decide_eq_true hn
      rw [if_pos hn] at h
      obtain ⟨nm, h1, h⟩ := bind_ok_inv _ _ _ h
      obtain ⟨credits, h2, h⟩ := bind_ok_inv _ _ _ h
      obtain ⟨castv, h3, h⟩ := bind_ok_inv _ _ _ h
      obtain ⟨castL, h4, h⟩ := bind_ok_inv _ _ _ h
      obtain ⟨cast, h5, h⟩ := bind_ok_inv _ _ _ h
      obtain ⟨cbv, h6, h⟩ := bind_ok_inv _ _ _ h
      obtain ⟨cbL, h7, h⟩ := bind_ok_inv _ _ _ h
      obtain ⟨cbs, h8, h⟩ := bind_ok_inv _ _ _ h
      obtain ⟨stat, h9, h⟩ := bind_ok_inv _ _ _ h
      obtain ⟨pop, h10, h⟩ := bind_ok_inv _ _ _ h
      obtain ⟨rat, h11, h⟩ := bind_ok_inv _ _ _ h
      cases Except.ok.inj h
      rw [hso]
      constructor
      · simp [rowsT4]
      · intro hb
        simp only [balancedT4, rowsT4] at hb ⊢
        simp only [List.length_append, List.length_cons, List.length_nil]
        omega
    · have hso : seasonOk r = false := by
        unfold seasonOk; rw [hs]; exact decide_eq_false hn
      rw [if_neg hn] at h
      cases Except.ok.inj h
      rw [hso]
      exact ⟨rfl, fun hb => hb⟩
  · -- seasons is neither null nor a number: TypeError
    exact Except.noConfusion h

theorem pySub_genSub_aux (n : Nat) :
    ∀ l : Str, l.length ≤ n → pySub l = genSub boundaryMatch l := by
  induction n with
  | zero =>
    intro l hl
    have h0 : l = [] := List.length_eq_zero.mp (Nat.le_zero.mp hl)
    subst h0
    rw [genSub]
    rfl
  | succ n ih =>
    intro l hl
    rcases l with _ | ⟨a, _ | ⟨b, _ | ⟨c, rest⟩⟩⟩
    · rw [genSub]
      rfl
    · rw [genSub]
      show pySub [a] = a :: genSub boundaryMatch []
      rw [genSub]
      rfl
    · rw [genSub]
      show pySub [a, b] = a :: genSub boundaryMatch [b]
      rw [genSub]
      show pySub [a, b] = a :: b :: genSub boundaryMatch []
      rw [genSub]
      rfl
    · by_cases hc : a = '\n' ∧ b = '\x7d' ∧ (c = '\n' ∨ c = '$')
      · have hrest : pySub rest = genSub boundaryMatch rest :=
          ih rest (by simp only [List.length_cons] at hl; omega)
        rw [pySub, if_pos hc, genSub, boundaryMatch, if_pos hc, hrest]
        obtain ⟨rfl, rfl, -⟩ := hc
        rfl
      · have h2 : pySub (b :: c :: rest) = genSub boundaryMatch (b :: c :: rest) :=
          ih _ (by simp only [List.length_cons] at hl ⊢; omega)
        rw [pySub, if_neg hc, genSub, boundaryMatch, if_neg hc, h2]

/-- C1 (corrected): a Task4 record whose `number_of_seasons` is null or below 1
appends no row, but `consume` still registers its `name` in the deduplication
set, so a later record with the same `name` and a valid season count is
rejected as a duplicate rather than accepted. -/
theorem claim_c1 (st : TTState T4Data) (r m r' m' : JVal) (t s : JVal)
    (hname : pyGet r "name".data = .ok t) (hnew : t ∉ st.titles)
    (hs : pyGet r "number_of_seasons".data = .ok s)
    (hbad : s = .jnull ∨ ∃ n, s = .jnum n ∧ n < 1)
    (hname' : pyGet r' "name".data = .ok t) :
    consumeT4 st r m = .ok ⟨t :: st.titles, st.data⟩ ∧
      consumeT4 ⟨t :: st.titles, st.data⟩ r' m' = .ok ⟨t :: st.titles, st.data⟩ := by
  have himpl : task4_consume_impl st.data r m = .ok st.data := by
    unfold task4_consume_impl
    rw [hs, bind_ok_py]
    rcases hbad with rfl | ⟨n, rfl, hn⟩
    · rfl
    · obtain rfl : n = 0 := by omega
      rfl
  constructor
  · exact consume_new false "name".data task4_consume_impl st r m t st.data rfl
      hname hnew himpl
  · exact consume_dup false "name".data task4_consume_impl ⟨t :: st.titles, st.data⟩
      r' m' t rfl hname' (List.mem_cons_self t st.titles)

/-- Counterexample to C1 as stated: after consuming a record with a null
season count, the same `name` with a valid season count is no longer
accepted (row count stays 0), although that second record alone would have
produced a row. -/
theorem claim_c1_counterexample :
    consumeMany consumeT4 ⟨[], T4Data.init⟩ [(rShowNull, .jnull), (rShowOne, .jnull)]
        = .ok ⟨[.jstr "A".data], T4Data.init⟩ ∧
      rowsT4 T4Data.init = 0 ∧
      consumeT4 ⟨[], T4Data.init⟩ rShowOne .jnull
        = .ok ⟨[.jstr "A".data],
            ⟨[.jstr "A".data], [.jnum 1], [.jarr []], [.jarr []],
             [.jstr "OK".data], [.jnum 5], [.jnum 7]⟩⟩ :=
  ⟨rfl, rfl, rfl⟩

/-- Witness for the C1 theorem at concrete records. -/
theorem claim_c1_witness :
    pyGet rShowNull "name".data = .ok (.jstr "A".data) ∧
      (consumeT4 ⟨[], T4Data.init⟩ rShowNull .jnull
          = .ok ⟨[.jstr "A".data], T4Data.init⟩ ∧
        consumeT4 ⟨[.jstr "A".data], T4Data.init⟩ rShowOne .jnull
          = .ok ⟨[.jstr "A".data], T4Data.init⟩) :=
  ⟨rfl, claim_c1 ⟨[], T4Data.init⟩ rShowNull .jnull rShowOne .jnull
    (.jstr "A".data) .jnull rfl (by decide) rfl (Or.inl rfl) rfl⟩

/-- C2 (corrected): the driver catches only `RuntimeError`; when every
group's `process` returns normally or raises `RuntimeError`, all three groups
run in the fixed order Movies, Regions, Shows. -/
theorem claim_c2 (outcomes : GroupName → Except PyErr Unit)
    (h : ∀ g, outcomes g = .ok () ∨ outcomes g = .error .runtimeError) :
    run_task_transformers outcomes = ([.movies, .regions, .shows], none) := by
  have hp : ∀ g, process_task_group (outcomes g) = none := fun g => by
    rcases h g with hg | hg <;> (unfold process_task_group; rw [hg])
  simp only [run_task_transformers, groupOrder, runGroups, hp]

/-- Counterexample to C2 as stated: an `OSError` out of the first group's
`process` escapes the wrapper and aborts the driver loop, so the remaining
two groups never run. -/
theorem claim_c2_counterexample :
    run_task_transformers (fun _ => .error .osError)
      = ([GroupName.movies], some PyErr.osError) := rfl

/-- Witness for the C2 theorem at a concrete outcome map. -/
theorem claim_c2_witness :
    (∀ g, sampleOutcomes g = .ok () ∨ sampleOutcomes g = .error .runtimeError) ∧
      run_task_transformers sampleOutcomes
        = ([GroupName.movies, GroupName.regions, GroupName.shows], none) :=
  ⟨fun g => match g with
    | .movies => Or.inr rfl
    | .regions => Or.inl rfl
    | .shows => Or.inl rfl,
   claim_c2 sampleOutcomes (fun g => match g with
    | .movies => Or.inr rfl
    | .regions => Or.inl rfl
    | .shows => Or.inl rfl)⟩

/-- C3 (amended): for any non-empty list of non-empty, well-behaved record
objects, repairing the concatenation of their pretty-printed renderings (each
terminated by a newline) yields exactly those objects, in order, under the
`contents` key. -/
theorem claim_c3 (os : List (List (Str × JVal))) (hos : os ≠ [])
    (hgood : goodBlocks os = true) :
    repair_json (blocksText os)
        = .ok (.jobj [("contents".data, .jarr (os.map JVal.jobj))]) ∧
      (os.map JVal.jobj).length = os.length := by
  refine ⟨?_, by simp⟩
  have h := repair_blocks_frag os [] hos hgood rfl (List.not_mem_nil ',')
  simpa using h

/-- Counterexample to C3 as stated: a single empty object (a valid
pretty-printed JSON object terminated by a newline) is not repaired into a
one-element `contents` list; the backward comma scan raises `IndexError`. -/
theorem claim_c3_counterexample :
    blocksText [[]] = '\x7b' :: '\x7d' :: '\n' :: [] ∧
      repair_json ('\x7b' :: '\x7d' :: '\n' :: []) = .error .indexError := by
  constructor
  · simp [blocksText, ppTop, ppVal]
  · rfl

/-- Witness for the C3 theorem at two concrete record objects. -/
theorem claim_c3_witness :
    goodBlocks [[("a".data, JVal.jnum 1)], [("b".data, JVal.jnull)]] = true ∧
      (repair_json (blocksText [[("a".data, JVal.jnum 1)], [("b".data, JVal.jnull)]])
          = .ok (.jobj [("contents".data,
              .jarr [JVal.jobj [("a".data, JVal.jnum 1)],
                     JVal.jobj [("b".data, JVal.jnull)]])]) ∧
        ([JVal.jobj [("a".data, JVal.jnum 1)],
          JVal.jobj [("b".data, JVal.jnull)]] : List JVal).length = 2) :=
  ⟨by decide, claim_c3 [[("a".data, JVal.jnum 1)], [("b".data, JVal.jnull)]]
    (by decide) (by decide)⟩

/-- C4 (corrected): on text whose boundary-inserted form contains no comma
the backward scan does not stop at index 0: Python's negative indexing wraps
it past the start and `repair_json` raises `IndexError` (not a JSON parse
error, nor a successful whole-content parse). -/
theorem claim_c4 (s : Str) (h : ',' ∉ pySub s) :
    repair_json s = .error .indexError := by
  simp only [repair_json, lastCommaScan_none (pySub s) h]

/-- Counterexample to C4 as stated: on the comma-free text "ab" the scan
reads the wrapped-around index -1 (a successful out-of-range read) and ends
in `IndexError`, rather than stopping at index 0. -/
theorem claim_c4_counterexample :
    charAtPy ('a' :: 'b' :: []) (-1) = .ok 'b' ∧
      lastCommaScan ('a' :: 'b' :: []) = .error .indexError ∧
      repair_json ('a' :: 'b' :: []) = .error .indexError :=
  ⟨rfl, rfl, rfl⟩

/-- Witness for the C4 theorem at a concrete comma-free text. -/
theorem claim_c4_witness :
    (',' ∉ pySub ('x' :: 'y' :: [])) ∧
      repair_json ('x' :: 'y' :: []) = .error .indexError :=
  ⟨by decide, claim_c4 ('x' :: 'y' :: []) (by decide)⟩

/-- C5 (corrected): the boundary substitution equals a leftmost
non-overlapping find-and-replace of the three-character window
newline, closing brace, then newline-or-literal-dollar, replaced by
newline, brace, comma, newline; the match needs a preceding newline and
treats the dollar sign as a literal character, not end-of-string. -/
theorem claim_c5 : ∀ l : Str, pySub l = genSub boundaryMatch l :=
  fun l => pySub_genSub_aux l.length l le_rfl

/-- Counterexample to C5 as stated: in "x\n}\nY" the brace is followed by a
newline and then a non-newline character, so the claim's rule leaves the text
unchanged, but the code's substitution (needing only newline-brace-newline)
inserts a comma. -/
theorem claim_c5_counterexample :
    pySub ('x' :: '\n' :: '\x7d' :: '\n' :: 'Y' :: [])
        = 'x' :: '\n' :: '\x7d' :: ',' :: '\n' :: 'Y' :: [] ∧
      specBoundarySub ('x' :: '\n' :: '\x7d' :: '\n' :: 'Y' :: [])
        = 'x' :: '\n' :: '\x7d' :: '\n' :: 'Y' :: [] :=
  ⟨rfl, rfl⟩

/-- C6 (amended): repairing well-behaved record objects followed by a
trailing fragment that contains no comma and completes no boundary window
yields exactly the valid objects, none duplicated and none truncated. -/
theorem claim_c6 (os : List (List (Str × JVal))) (frag : Str) (hos : os ≠ [])
    (hgood : goodBlocks os = true) (hfrag : bridgeFree frag [] = true)
    (hcomma : ',' ∉ frag) :
    repair_json (blocksText os ++ frag)
      = .ok (.jobj [("contents".data, .jarr (os.map JVal.jobj))]) :=
  repair_blocks_frag os frag hos hgood hfrag hcomma

/-- Counterexample to C6 as stated: a trailing incomplete fragment that
carries a comma makes the repaired text unparseable (`json.JSONDecodeError`),
so the valid object is not recovered, although the prefix before the
fragment is a valid object on its own. -/
theorem claim_c6_counterexample :
    repair_json ("\x7b\n    \"a\": 1\n\x7d\n\x7b\"x\": 1,".data)
        = .error .jsonError ∧
      json_loads ("\x7b\n    \"a\": 1\n\x7d".data)
        = some (.jobj [("a".data, .jnum 1)]) :=
  ⟨rfl, rfl⟩

/-- Witness for the C6 theorem at one record object and a comma-free
fragment. -/
theorem claim_c6_witness :
    goodBlocks [[("a".data, JVal.jnum 1)]] = true ∧
      bridgeFree ('g' :: []) [] = true ∧
      repair_json (blocksText [[("a".data, JVal.jnum 1)]] ++ 'g' :: [])
        = .ok (.jobj [("contents".data,
            .jarr [JVal.jobj [("a".data, JVal.jnum 1)]])]) :=
  ⟨by decide, by decide,
   claim_c6 [[("a".data, JVal.jnum 1)]] ('g' :: []) (by decide) (by decide)
     (by decide) (by decide)⟩

/-- C7 (corrected): for every extractor variant, a `consume` call whose
record's title is already registered is a no-op, provided the movie filter
itself evaluates without error on that record (a missing `media_type` key in
a movies-only variant raises `KeyError` before the deduplication test). -/
theorem claim_c7 {σ : Type} (fmo : Bool) (tk : Str)
    (impl : σ → JVal → JVal → Except PyErr σ) (st : TTState σ) (r m : JVal)
    (t : JVal) (b : Bool)
    (ht : pyGet r tk = .ok t) (hreg : t ∈ st.titles)
    (hmp : moviePass fmo r = .ok b) :
    consume fmo tk impl st r m = .ok st := by
  cases b with
  | false => exact consume_pass_false fmo tk impl st r m hmp
  | true => exact consume_dup fmo tk impl st r m t hmp ht hreg

/-- Counterexample to C7 as stated: Task1 accepts a movie titled "T", and a
second record with the same title but no `media_type` key makes the second
`consume` raise `KeyError` instead of being a silent no-op. -/
theorem claim_c7_counterexample :
    consumeT1 ⟨[], T1Data.init⟩ rMovie .jnull
        = .ok ⟨[.jstr "T".data], ⟨[.jarr []], [.jnum 5], [.jstr "T".data]⟩⟩ ∧
      consumeT1 ⟨[.jstr "T".data], ⟨[.jarr []], [.jnum 5], [.jstr "T".data]⟩⟩
          rNoMedia .jnull
        = .error (.keyError "media_type".data) :=
  ⟨rfl, rfl⟩

/-- Witness for the C7 theorem at the Task1 extractor and a concrete movie
record. -/
theorem claim_c7_witness :
    pyGet rMovie "title".data = .ok (.jstr "T".data) ∧
      consume true "title".data task1_consume_impl
          ⟨[.jstr "T".data], T1Data.init⟩ rMovie .jnull
        = .ok ⟨[.jstr "T".data], T1Data.init⟩ :=
  ⟨rfl, claim_c7 true "title".data task1_consume_impl
    ⟨[.jstr "T".data], T1Data.init⟩ rMovie .jnull (.jstr "T".data) true
    rfl (by decide) rfl⟩

/-- C8: the movies-only extractors Task1, Task2 and Task5 reject a record
whose `media_type` is not "MOVIE" without appending a row or registering its
title, so a later movie record with the same title is still accepted and
appends one row. -/
theorem claim_c8 (st1 : TTState T1Data) (st2 : TTState T2Data)
    (st5 : TTState T5Data) (r m : JVal) (mt : JVal)
    (hmt : pyGet r "media_type".data = .ok mt)
    (hne : mt ≠ JVal.jstr "MOVIE".data) :
    consumeT1 st1 r m = .ok st1 ∧ consumeT2 st2 r m = .ok st2 ∧
      consumeT5 st5 r m = .ok st5 ∧
      (∀ (r' m' t' : JVal) (d' : T1Data),
        pyGet r' "title".data = .ok t' → t' ∉ st1.titles →
        pyGet r' "media_type".data = .ok (JVal.jstr "MOVIE".data) →
        task1_consume_impl st1.data r' m' = .ok d' →
        consumeT1 st1 r' m' = .ok ⟨t' :: st1.titles, d'⟩ ∧
          rowsT1 d' = rowsT1 st1.data + 1) := by
  have hp : moviePass true r = .ok false := by
    rw [moviePass_movie r mt hmt, decide_eq_false hne]
  refine ⟨consume_pass_false true "title".data task1_consume_impl st1 r m hp,
          consume_pass_false true "title".data task2_consume_impl st2 r m hp,
          consume_pass_false true "title".data task5_consume_impl st5 r m hp, ?_⟩
  intro r' m' t' d' ht' hmem hmv himpl
  refine ⟨?_, (task1_impl_rows st1.data r' m' d' himpl).1⟩
  refine consume_new true "title".data task1_consume_impl st1 r' m' t' d' ?_ ht' hmem himpl
  rw [moviePass_movie r' _ hmv]
  exact congrArg Except.ok (decide_eq_true rfl)

/-- Witness for the C8 theorem at a concrete television record. -/
theorem claim_c8_witness :
    pyGet rTv "media_type".data = .ok (.jstr "TV".data) ∧
      (consumeT1 ⟨[], T1Data.init⟩ rTv .jnull = .ok ⟨[], T1Data.init⟩ ∧
        consumeT2 ⟨[], T2Data.init⟩ rTv .jnull = .ok ⟨[], T2Data.init⟩ ∧
        consumeT5 ⟨[], T5Data.init⟩ rTv .jnull = .ok ⟨[], T5Data.init⟩ ∧
        (∀ (r' m' t' : JVal) (d' : T1Data),
          pyGet r' "title".data = .ok t' →
          t' ∉ (⟨[], T1Data.init⟩ : TTState T1Data).titles →
          pyGet r' "media_type".data = .ok (JVal.jstr "MOVIE".data) →
          task1_consume_impl (⟨[], T1Data.init⟩ : TTState T1Data).data r' m' = .ok d' →
          consumeT1 ⟨[], T1Data.init⟩ r' m'
              = .ok ⟨t' :: (⟨[], T1Data.init⟩ : TTState T1Data).titles, d'⟩ ∧
            rowsT1 d' = rowsT1 (⟨[], T1Data.init⟩ : TTState T1Data).data + 1)) :=
  ⟨rfl, claim_c8 ⟨[], T1Data.init⟩ ⟨[], T2Data.init⟩ ⟨[], T5Data.init⟩ rTv .jnull
    (.jstr "TV".data) rfl (by decide)⟩

/-- C9: for every extractor variant, after a successful sequence of consume
calls all column sequences of the store have the same length, equal to the
declarative count of accepted (filter-passing, non-duplicate, and for Task4
season-valid) records. -/
theorem claim_c9 :
    (∀ (l : List (JVal × JVal)) (st' : TTState T1Data),
      consumeMany consumeT1 ⟨[], T1Data.init⟩ l = .ok st' →
      balancedT1 st'.data ∧
        rowsT1 st'.data = acceptedCount true "title".data (fun _ => 1) [] l) ∧
    (∀ (l : List (JVal × JVal)) (st' : TTState T2Data),
      consumeMany consumeT2 ⟨[], T2Data.init⟩ l = .ok st' →
      balancedT2 st'.data ∧
        rowsT2 st'.data = acceptedCount true "title".data (fun _ => 1) [] l) ∧
    (∀ (l : List (JVal × JVal)) (st' : TTState T3Data),
      consumeMany consumeT3 ⟨[], T3Data.init⟩ l = .ok st' →
      balancedT3 st'.data ∧
        rowsT3 st'.data = acceptedCount false "title".data (fun _ => 1) [] l) ∧
    (∀ (l : List (JVal × JVal)) (st' : TTState T4Data),
      consumeMany consumeT4 ⟨[], T4Data.init⟩ l = .ok st' →
      balancedT4 st'.data ∧
        rowsT4 st'.data
          = acceptedCount false "name".data
              (fun r => if seasonOk r then 1 else 0) [] l) ∧
    (∀ (l : List (JVal × JVal)) (st' : TTState T5Data),
      consumeMany consumeT5 ⟨[], T5Data.init⟩ l = .ok st' →
      balancedT5 st'.data ∧
        rowsT5 st'.data = acceptedCount true "title".data (fun _ => 1) [] l) := by
  refine ⟨?_, ?_, ?_, ?_, ?_⟩ <;> intro l st' h
  · have hc := consumeMany_count true "title".data task1_consume_impl rowsT1
      balancedT1 (fun _ => 1) task1_impl_rows l ⟨[], T1Data.init⟩ st' h
    exact ⟨hc.2 ⟨rfl, rfl⟩, by simpa [rowsT1, T1Data.init] using hc.1⟩
  · have hc := consumeMany_count true "title".data task2_consume_impl rowsT2
      balancedT2 (fun _ => 1) task2_impl_rows l ⟨[], T2Data.init⟩ st' h
    exact ⟨hc.2 ⟨rfl, rfl, rfl, rfl, rfl⟩, by simpa [rowsT2, T2Data.init] using hc.1⟩
  · have hc := consumeMany_count false "title".data task3_consume_impl rowsT3
      balancedT3 (fun _ => 1) task3_impl_rows l ⟨[], T3Data.init⟩ st' h
    exact ⟨hc.2 ⟨rfl, rfl, rfl, rfl⟩, by simpa [rowsT3, T3Data.init] using hc.1⟩
  · have hc := consumeMany_count false "name".data task4_consume_impl rowsT4
      balancedT4 (fun r => if seasonOk r then 1 else 0) task4_impl_rows l
      ⟨[], T4Data.init⟩ st' h
    exact ⟨hc.2 ⟨rfl, rfl, rfl, rfl, rfl, rfl⟩,
      by simpa [rowsT4, T4Data.init] using hc.1⟩
  · have hc := consumeMany_count true "title".data task5_consume_impl rowsT5
      balancedT5 (fun _ => 1) task5_impl_rows l ⟨[], T5Data.init⟩ st' h
    exact ⟨hc.2 ⟨rfl, rfl, rfl, rfl, rfl⟩, by simpa [rowsT5, T5Data.init] using hc.1⟩

/-- Witness for the C9 theorem on a one-record run of Task1. -/
theorem claim_c9_witness :
    consumeMany consumeT1 ⟨[], T1Data.init⟩ [(rMovie, JVal.jnull)]
        = .ok ⟨[.jstr "T".data], ⟨[.jarr []], [.jnum 5], [.jstr "T".data]⟩⟩ ∧
      (balancedT1 (⟨[.jarr []], [.jnum 5], [.jstr "T".data]⟩ : T1Data) ∧
        rowsT1 (⟨[.jarr []], [.jnum 5], [.jstr "T".data]⟩ : T1Data)
          = acceptedCount true "title".data (fun _ => 1) [] [(rMovie, JVal.jnull)]) :=
  ⟨rfl, claim_c9.1 [(rMovie, JVal.jnull)]
    ⟨[.jstr "T".data], ⟨[.jarr []], [.jnum 5], [.jstr "T".data]⟩⟩ rfl⟩

/-- C10: a movies-only extractor reads `media_type` before any filtering
decision, so a record lacking that key raises `KeyError` even though it would
have been rejected; a non-movies-only extractor short-circuits the filter and
never reads `media_type`, so its consume succeeds on such records. -/
theorem claim_c10 (st1 : TTState T1Data) (st2 : TTState T2Data)
    (st5 : TTState T5Data) (st3 : TTState T3Data) (st4 : TTState T4Data)
    (r m : JVal) (t3 t4 : JVal)
    (hmt : pyGet r "media_type".data = .error (.keyError "media_type".data))
    (ht3 : pyGet r "title".data = .ok t3) (h3mem : t3 ∈ st3.titles)
    (ht4 : pyGet r "name".data = .ok t4) (h4mem : t4 ∈ st4.titles) :
    consumeT1 st1 r m = .error (.keyError "media_type".data) ∧
      consumeT2 st2 r m = .error (.keyError "media_type".data) ∧
      consumeT5 st5 r m = .error (.keyError "media_type".data) ∧
      consumeT3 st3 r m = .ok st3 ∧
      consumeT4 st4 r m = .ok st4 := by
  have hp := moviePass_err r _ hmt
  exact ⟨consume_pass_fail true "title".data task1_consume_impl st1 r m _ hp,
         consume_pass_fail true "title".data task2_consume_impl st2 r m _ hp,
         consume_pass_fail true "title".data task5_consume_impl st5 r m _ hp,
         consume_dup false "title".data task3_consume_impl st3 r m t3 rfl ht3 h3mem,
         consume_dup false "name".data task4_consume_impl st4 r m t4 rfl ht4 h4mem⟩

/-- Witness for the C10 theorem at a concrete record lacking `media_type`. -/
theorem claim_c10_witness :
    pyGet rTitleName "media_type".data = .error (.keyError "media_type".data) ∧
      (consumeT1 ⟨[], T1Data.init⟩ rTitleName .jnull
          = .error (.keyError "media_type".data) ∧
        consumeT2 ⟨[], T2Data.init⟩ rTitleName .jnull
          = .error (.keyError "media_type".data) ∧
        consumeT5 ⟨[], T5Data.init⟩ rTitleName .jnull
          = .error (.keyError "media_type".data) ∧
        consumeT3 ⟨[.jstr "T".data], T3Data.init⟩ rTitleName .jnull
          = .ok ⟨[.jstr "T".data], T3Data.init⟩ ∧
        consumeT4 ⟨[.jstr "T".data], T4Data.init⟩ rTitleName .jnull
          = .ok ⟨[.jstr "T".data], T4Data.init⟩) :=
  ⟨rfl, claim_c10 ⟨[], T1Data.init⟩ ⟨[], T2Data.init⟩ ⟨[], T5Data.init⟩
    ⟨[.jstr "T".data], T3Data.init⟩ ⟨[.jstr "T".data], T4Data.init⟩
    rTitleName .jnull (.jstr "T".data) (.jstr "T".data)
    rfl rfl (by decide) rfl (by decide)⟩
